import Mathlib

set_option autoImplicit false

/-!
Verification of the EditorKit reactive runtime toolkit.

This file gives a shallow embedding of the three engines of the repository
(the `StatePath` state tree, the `EventManager` listener trie, the
`ActionProcessorContainer` pipeline and the `EventBus`) and proves the
behavioural properties stated about them.

Modelling conventions:
* `std::unordered_map` is modelled as an association list with
  insert-or-assign (`assocSet`), lookup (`assocGet`) and erase
  (`assocErase`); the map's keys are unique, and iteration order is not
  observable in any of the verified properties.
* `float` and pointer payloads are carried opaquely (as raw numeric
  payloads): the tree only stores and returns them, it never computes
  with them.
* Callback side effects are represented by traces: a mutator returns the
  list of events handed to `triggerEvent` and the list of error reports
  handed to `triggerError`; a dispatcher returns the list of handlers it
  invoked, in order.
* Machine integers held in nodes are only stored and returned, never
  computed with, so they are embedded as `Int`/`Nat` without wrap-around.
-/

namespace EditorKit

/-- Association-list lookup, modelling `std::unordered_map::find`. -/
def assocGet {κ α : Type} [DecidableEq κ] : List (κ × α) → κ → Option α
  | [], _ => none
  | (k, v) :: rest, key => if k = key then some v else assocGet rest key

/-- Association-list insert-or-assign, modelling `map[key] = value`
(and `ObjectNode::addChild`, which deletes the displaced node). -/
def assocSet {κ α : Type} [DecidableEq κ] : List (κ × α) → κ → α → List (κ × α)
  | [], key, val => [(key, val)]
  | (k, v) :: rest, key, val =>
    if k = key then (k, val) :: rest else (k, v) :: assocSet rest key val

/-- Association-list erase, modelling `map.erase(key)`. -/
def assocErase {κ α : Type} [DecidableEq κ] : List (κ × α) → κ → List (κ × α)
  | [], _ => []
  | (k, v) :: rest, key => if k = key then rest else (k, v) :: assocErase rest key

/-- Cuts a character list at every `/`. -/
def splitSegsAux : List Char → List Char → List (List Char)
  | [], acc => [acc.reverse]
  | c :: rest, acc =>
    if c = '/' then acc.reverse :: splitSegsAux rest []
    else splitSegsAux rest (c :: acc)

/-- `splitPath`: split on `/` and drop empty segments, exactly as the
`std::getline`-based loops in `StatePath::splitPath` and
`EventManager::splitPath` do. -/
def splitPath (path : String) : List String :=
  ((splitSegsAux path.data []).map (fun l => String.mk l)).filter (fun s => s != "")

/-- `combinePath` as defined in `StatePath` and `StateNode.cpp`. -/
def combinePath (base relative : String) : String :=
  if base = "" then relative
  else if relative = "" then base
  else base ++ "/" ++ relative

/-- Canonical join of a segment list with `/` separators; `joinPath
(splitPath p) = p` characterises an already-normalized path. -/
def joinPath : List String → String
  | [] => ""
  | [s] => s
  | s :: rest => s ++ "/" ++ joinPath (rest)

/-- `NodeType` enumeration of `StateNode.h`. -/
inductive NodeType where
  | OBJECT
  | INT
  | FLOAT
  | BOOL
  | POINTER
  | STRING
  | EMPTY
deriving DecidableEq, Repr

/-- The node hierarchy of `StateNode.h`.  Leaf nodes carry their value;
`ObjectNode` carries its `absolutePath` and its name-indexed children
(an `unordered_map`, modelled as an association list with unique keys).
Float and pointer payloads are opaque to the tree and carried as raw
numeric payloads. -/
inductive BaseNode where
  | intNode (value : Int)
  | floatNode (value : Nat)
  | boolNode (value : Bool)
  | pointerNode (value : Nat)
  | stringNode (value : String)
  | objectNode (absolutePath : String) (children : List (String × BaseNode))

/-- `BaseNode::getType`. -/
def BaseNode.getType : BaseNode → NodeType
  | .intNode _ => .INT
  | .floatNode _ => .FLOAT
  | .boolNode _ => .BOOL
  | .pointerNode _ => .POINTER
  | .stringNode _ => .STRING
  | .objectNode _ _ => .OBJECT

/-- A leaf value of one of the five scalar kinds.  The five `set*`
members of `StatePath` are textually identical up to the node class they
instantiate, so they are embedded once, parameterized by the leaf value. -/
inductive LeafVal where
  | intV (v : Int)
  | floatV (v : Nat)
  | boolV (v : Bool)
  | pointerV (v : Nat)
  | stringV (v : String)
deriving DecidableEq, Repr

/-- The `NodeType` a leaf value is stored as. -/
def LeafVal.kind : LeafVal → NodeType
  | .intV _ => .INT
  | .floatV _ => .FLOAT
  | .boolV _ => .BOOL
  | .pointerV _ => .POINTER
  | .stringV _ => .STRING

/-- `new IntNode(v)` / `new FloatNode(v)` / ... -/
def mkLeafNode : LeafVal → BaseNode
  | .intV v => .intNode v
  | .floatV v => .floatNode v
  | .boolV v => .boolNode v
  | .pointerV v => .pointerNode v
  | .stringV v => .stringNode v

/-- Reads the stored leaf value back from a node (the common core of the
typed getters `getInt`, `getFloat`, `getBool`, `getPointer`,
`getString`, each of which succeeds only on its own node kind). -/
def leafValOf : BaseNode → Option LeafVal
  | .intNode v => some (.intV v)
  | .floatNode v => some (.floatV v)
  | .boolNode v => some (.boolV v)
  | .pointerNode v => some (.pointerV v)
  | .stringNode v => some (.stringV v)
  | .objectNode _ _ => none

/-- `EventType` of `StatePathListener.h`. -/
inductive EventType where
  | ADD
  | REMOVE
  | MOVE
  | UPDATE
deriving DecidableEq, Repr

/-- `PathEvent` as filled in by `StatePath::triggerEvent`: the node
pointer itself is replaced by the node kind it reports
(`node ? node->getType() : EMPTY`). -/
structure PathEvent where
  type : EventType
  path : String
  relatedPath : String
  nodeType : NodeType
deriving DecidableEq, Repr

/-- The diagnostics handed to `triggerError`, abstracted to their kind
and the offending path (the source strings are free-text). -/
inductive ErrorReport where
  | typeMismatch (path : String)
  | invalidPath (path : String)
deriving DecidableEq, Repr

/-- The children map of an `ObjectNode`. -/
abbrev NodeChildren := List (String × BaseNode)

/-- `ObjectNode::getChild`. -/
def getChild (cs : NodeChildren) (name : String) : Option BaseNode :=
  assocGet cs name

/-- `ObjectNode::addChild` (deletes any displaced node). -/
def addChild (cs : NodeChildren) (name : String) (node : BaseNode) : NodeChildren :=
  assocSet cs name node

/-- `ObjectNode::removeChild` (the erased entry; ownership passes to the
caller). -/
def removeChild (cs : NodeChildren) (name : String) : NodeChildren :=
  assocErase cs name

/-- `ObjectNode::hasChild`. -/
def hasChild (cs : NodeChildren) (name : String) : Bool :=
  (assocGet cs name).isSome

/-- `ObjectNode::getChildNames`. -/
def childNames (cs : NodeChildren) : List String :=
  cs.map (fun p => p.1)

/-- The state tree.  The root is always an `ObjectNode` with absolute
path `""`; only its children and the event-enable flag are state. -/
structure StatePath where
  rootChildren : NodeChildren
  enableEvents : Bool

/-- A freshly constructed `StatePath`. -/
def StatePath.empty : StatePath :=
  ⟨[], true⟩

/-- Decomposes a path into its intermediate segments and final name, as
both `getParentAndName` variants do; `none` when the split produces no
segments (their `{nullptr, ""}` result). -/
def splitParentName (path : String) : Option (List String × String) :=
  let parts := splitPath path
  match parts.getLast? with
  | none => none
  | some name => some (parts.dropLast, name)

/-- The walk of `getParentAndNameNoCreate`: follow the intermediate
segments without creating, failing if a segment is missing or is not an
`ObjectNode`; returns the children map of the final parent. -/
def descendNoCreate : NodeChildren → List String → Option NodeChildren
  | cs, [] => some cs
  | cs, seg :: rest =>
    match getChild cs seg with
    | some (BaseNode.objectNode _ sub) => descendNoCreate sub rest
    | _ => none

/-- `StatePath::getParentAndNameNoCreate`, returning the parent's
children map paired with the final segment. -/
def getParentAndNameNoCreate (t : StatePath) (path : String) :
    Option (NodeChildren × String) :=
  match splitParentName path with
  | none => none
  | some (interm, name) =>
    match descendNoCreate t.rootChildren interm with
    | some cs => some (cs, name)
    | none => none

/-- `StatePath::getNode`. -/
def getNode (t : StatePath) (path : String) : Option BaseNode :=
  match getParentAndNameNoCreate t path with
  | some (cs, name) => getChild cs name
  | none => none

/-- `StatePath::hasNode`. -/
def hasNode (t : StatePath) (path : String) : Bool :=
  match getParentAndNameNoCreate t path with
  | some (cs, name) => hasChild cs name
  | none => false

/-- `StatePath::getNodeType`. -/
def getNodeType (t : StatePath) (path : String) : NodeType :=
  match getNode t path with
  | some n => n.getType
  | none => .EMPTY

/-- `StatePath::getChildNames`: names of an object node's children, the
root's children for the empty path, `{}` otherwise. -/
def getChildNames (t : StatePath) (path : String) : List String :=
  match getParentAndNameNoCreate t path with
  | some (cs, name) =>
    match getChild cs name with
    | some (BaseNode.objectNode _ sub) => childNames sub
    | _ => []
  | none => if path = "" then childNames t.rootChildren else []

/-- `StatePath::forEachChild`, returned as the list of `(name, child)`
pairs the callback would be invoked on. -/
def forEachChildList (t : StatePath) (path : String) : List (String × BaseNode) :=
  match getParentAndNameNoCreate t path with
  | some (cs, name) =>
    match getChild cs name with
    | some (BaseNode.objectNode _ sub) => sub
    | _ => []
  | none => if path = "" then t.rootChildren else []

/-- `StatePath::getValue` and friends, read through `getNode`. -/
def getLeafVal (t : StatePath) (path : String) : Option LeafVal :=
  match getNode t path with
  | some n => leafValOf n
  | none => none

/-- `StatePath::triggerEvent`: builds the `PathEvent` record and hands
it to the listeners — suppressed entirely when events are disabled. -/
def triggerEvent (t : StatePath) (type : EventType) (path relatedPath : String)
    (node : Option BaseNode) : List PathEvent :=
  if t.enableEvents then
    [⟨type, path, relatedPath, match node with | some n => n.getType | none => .EMPTY⟩]
  else []

/-- The walk of `getParentAndName`: descend the intermediate segments,
auto-creating missing intermediates and replacing non-`Object`
intermediates by fresh `ObjectNode`s (whose absolute path combines the
current parent's stored absolute path with the segment), then apply the
mutation `f` to the final parent's children map, threading the emitted
events and errors back up. -/
def editAtParent :
    NodeChildren → String → List String →
    (NodeChildren → NodeChildren × List PathEvent × List ErrorReport) →
    NodeChildren × List PathEvent × List ErrorReport
  | cs, _, [], f => f cs
  | cs, curAbs, seg :: rest, f =>
    match getChild cs seg with
    | some (BaseNode.objectNode abs sub) =>
      let r := editAtParent sub abs rest f
      (addChild cs seg (BaseNode.objectNode abs r.1), r.2)
    | _ =>
      let abs := combinePath curAbs seg
      let r := editAtParent [] abs rest f
      (addChild cs seg (BaseNode.objectNode abs r.1), r.2)

/-- Like `editAtParent` but without creation: the walk of
`getParentAndNameNoCreate` followed by a mutation of the final parent's
children, which also returns an auxiliary value. -/
def editAtParentNoCreate {α : Type} :
    NodeChildren → List String → (NodeChildren → NodeChildren × α) →
    Option (NodeChildren × α)
  | cs, [], f => some (f cs)
  | cs, seg :: rest, f =>
    match getChild cs seg with
    | some (BaseNode.objectNode abs sub) =>
      match editAtParentNoCreate sub rest f with
      | some (sub2, a) => some (addChild cs seg (BaseNode.objectNode abs sub2), a)
      | none => none
    | _ => none

/-- The common body of `StatePath::setInt` / `setFloat` / `setBool` /
`setPointer` / `setString` (textually identical in the source up to the
node class): record `exists` with a preliminary `hasNode`, walk with
auto-creation, then either update the same-kind node in place (emitting
`UPDATE`), or report a type mismatch for a different-kind node and
replace it, or create the node, emitting `UPDATE` or `ADD` according to
the preliminary `exists`.  `setLeafStep` is the mutation applied at the
final parent: the branch on the existing child's kind, with `exists0`
the preliminary `hasNode` result. -/
def setLeafStep (t : StatePath) (path : String) (lv : LeafVal) (name : String)
    (exists0 : Bool) (cs : NodeChildren) :
    NodeChildren × List PathEvent × List ErrorReport :=
  match getChild cs name with
  | some old =>
    if old.getType = lv.kind then
      (addChild cs name (mkLeafNode lv),
       triggerEvent t .UPDATE path "" (some (mkLeafNode lv)), [])
    else
      (addChild cs name (mkLeafNode lv),
       triggerEvent t (if exists0 then .UPDATE else .ADD) path "" (some (mkLeafNode lv)),
       [ErrorReport.typeMismatch path])
  | none =>
    (addChild cs name (mkLeafNode lv),
     triggerEvent t (if exists0 then .UPDATE else .ADD) path "" (some (mkLeafNode lv)), [])

def setLeafValue (t : StatePath) (path : String) (lv : LeafVal) :
    StatePath × List PathEvent × List ErrorReport :=
  match splitParentName path with
  | none => (t, [], [ErrorReport.invalidPath path])
  | some (interm, name) =>
    let r := editAtParent t.rootChildren "" interm
      (setLeafStep t path lv name (hasNode t path))
    ({ t with rootChildren := r.1 }, r.2)

/-- `StatePath::setInt`. -/
def setInt (t : StatePath) (path : String) (v : Int) :
    StatePath × List PathEvent × List ErrorReport :=
  setLeafValue t path (LeafVal.intV v)

/-- `StatePath::setFloat` (opaque payload). -/
def setFloat (t : StatePath) (path : String) (v : Nat) :
    StatePath × List PathEvent × List ErrorReport :=
  setLeafValue t path (LeafVal.floatV v)

/-- `StatePath::setBool`. -/
def setBool (t : StatePath) (path : String) (v : Bool) :
    StatePath × List PathEvent × List ErrorReport :=
  setLeafValue t path (LeafVal.boolV v)

/-- `StatePath::setPointer` (opaque payload). -/
def setPointer (t : StatePath) (path : String) (v : Nat) :
    StatePath × List PathEvent × List ErrorReport :=
  setLeafValue t path (LeafVal.pointerV v)

/-- `StatePath::setString`. -/
def setString (t : StatePath) (path : String) (v : String) :
    StatePath × List PathEvent × List ErrorReport :=
  setLeafValue t path (LeafVal.stringV v)

/-- `StatePath::setObject`: an existing `ObjectNode` is left untouched
(only `UPDATE` is emitted); otherwise a fresh `ObjectNode` — whose
stored absolute path is the raw `path` argument — replaces whatever was
there, with the same mismatch diagnostics and `ADD`/`UPDATE` choice as
the leaf setters. -/
def setObject (t : StatePath) (path : String) :
    StatePath × List PathEvent × List ErrorReport :=
  let exists0 := hasNode t path
  match splitParentName path with
  | none => (t, [], [ErrorReport.invalidPath path])
  | some (interm, name) =>
    let r := editAtParent t.rootChildren "" interm (fun cs =>
      match getChild cs name with
      | some old =>
        if old.getType = NodeType.OBJECT then
          (cs, triggerEvent t .UPDATE path "" (some old), [])
        else
          (addChild cs name (BaseNode.objectNode path []),
           triggerEvent t (if exists0 then .UPDATE else .ADD) path ""
             (some (BaseNode.objectNode path [])),
           [ErrorReport.typeMismatch path])
      | none =>
        (addChild cs name (BaseNode.objectNode path []),
         triggerEvent t (if exists0 then .UPDATE else .ADD) path ""
           (some (BaseNode.objectNode path [])), []))
    ({ t with rootChildren := r.1 }, r.2)

/-- `StatePath::removeNode`: locate without creating; if the child
exists, emit `REMOVE` (before destruction) and erase it. -/
def removeNode (t : StatePath) (path : String) :
    StatePath × Bool × List PathEvent :=
  match splitParentName path with
  | none => (t, false, [])
  | some (interm, name) =>
    match editAtParentNoCreate t.rootChildren interm
        (fun cs => (removeChild cs name, getChild cs name)) with
    | some (cs2, some node) =>
      ({ t with rootChildren := cs2 }, true, triggerEvent t .REMOVE path "" (some node))
    | _ => (t, false, [])

/-- `StatePath::moveNode`: detach the node at `fromPath` (fail silently
if absent); resolve the destination parent with auto-creation (which
fails only when `toPath` has no segments, in which case the node is
re-attached at its original parent); emit the single `MOVE` event; then
attach the detached node under the destination name.  The source never
calls `updateNodePath`, so absolute paths stored inside the moved
subtree are not rewritten. -/
def moveNode (t : StatePath) (fromPath toPath : String) :
    StatePath × Bool × List PathEvent :=
  match splitParentName fromPath with
  | none => (t, false, [])
  | some (fInterm, fName) =>
    match editAtParentNoCreate t.rootChildren fInterm
        (fun cs => (removeChild cs fName, getChild cs fName)) with
    | none => (t, false, [])
    | some (_, none) => (t, false, [])
    | some (cs1, some node) =>
      match splitParentName toPath with
      | none =>
        match editAtParentNoCreate cs1 fInterm
            (fun cs => (addChild cs fName node, ())) with
        | some (cs2, _) => ({ t with rootChildren := cs2 }, false, [])
        | none => (t, false, [])
      | some (tInterm, tName) =>
        let evs := triggerEvent t .MOVE fromPath toPath (some node)
        let r := editAtParent cs1 "" tInterm (fun cs => (addChild cs tName node, [], []))
        ({ t with rootChildren := r.1 }, true, evs)

/-! ## The listener trie (`StatePathListener.h`) -/

/-- `ListenGranularity` of `StatePathListener.h`. -/
inductive ListenGranularity where
  | NODE
  | DIRECT_CHILD
  | ALL_CHILDREN
deriving DecidableEq, Repr

/-- `ListenerInfo`: the listener record held in the trie.  The callback
is not part of the matching logic and is omitted; delivery is reported
as the matched records themselves. -/
structure ListenerInfo where
  id : Nat
  path : String
  granularity : ListenGranularity
  eventType : EventType
deriving DecidableEq, Repr

/-- `EventTrieNode`: a prefix-tree node holding listener records, with
children indexed by path segment. -/
inductive EventTrieNode where
  | mk (children : List (String × EventTrieNode)) (listeners : List ListenerInfo)

/-- The children map of a trie node. -/
def EventTrieNode.children : EventTrieNode → List (String × EventTrieNode)
  | .mk cs _ => cs

/-- The listener records stored at a trie node
(`getCurrentListeners`). -/
def EventTrieNode.listeners : EventTrieNode → List ListenerInfo
  | .mk _ ls => ls

/-- `EventTrieNode::getChild`. -/
def getTrieChild (n : EventTrieNode) (seg : String) : Option EventTrieNode :=
  assocGet n.children seg

/-- The walk `node = node->getChild(part)` with `break` on a missing
child, as `findListeners` performs it for the exact node and the parent
node. -/
def walkTrie : EventTrieNode → List String → Option EventTrieNode
  | n, [] => some n
  | n, seg :: rest =>
    match getTrieChild n seg with
    | some c => walkTrie c rest
    | none => none

/-- `EventManager::addListener`'s trie part: descend along the segments
through `getOrCreateChild` and append the record at the final node. -/
def insertListener : EventTrieNode → List String → ListenerInfo → EventTrieNode
  | .mk cs ls, [], info => .mk cs (ls ++ [info])
  | .mk cs ls, seg :: rest, info =>
    let child := match assocGet cs seg with
      | some c => c
      | none => EventTrieNode.mk [] []
    .mk (assocSet cs seg (insertListener child rest info)) ls

/-- The guarded accumulation `findListeners` performs on a batch of
candidate records: a record is appended when it satisfies the phase's
condition and its id is not yet in the result (the source keeps the set
`addedIds`, which always holds exactly the ids of `result`). -/
def tryAddListeners (cond : ListenerInfo → Bool) (ls : List ListenerInfo)
    (acc : List ListenerInfo) : List ListenerInfo :=
  ls.foldl (fun acc l =>
    if cond l && acc.all (fun r => r.id != l.id) then acc ++ [l] else acc) acc

/-- Character-list prefix test, modelling `path.find(listener.path) == 0`
(`std::string::find` returning position 0 means `listener.path` is a
literal prefix of `path`). -/
def strIsPrefix (p s : String) : Bool :=
  p.data.isPrefixOf s.data

/-- Phase 1 condition of `findListeners` at the exact node: matching
event type, and `NODE` records need `listener.path == path` while
`ALL_CHILDREN` records need the registered path to be a literal string
prefix of the query path; `DIRECT_CHILD` records never match here. -/
def exactCond (path : String) (k : EventType) (l : ListenerInfo) : Bool :=
  l.eventType == k &&
    (match l.granularity with
     | .NODE => l.path == path
     | .ALL_CHILDREN => strIsPrefix l.path path
     | .DIRECT_CHILD => false)

/-- Phase 3 condition of `findListeners` at each ancestor node. -/
def ancestorCond (path : String) (k : EventType) (l : ListenerInfo) : Bool :=
  l.eventType == k && l.granularity == ListenGranularity.ALL_CHILDREN &&
    strIsPrefix l.path path

/-- Phase 3 of `findListeners`: re-walk the query segments from the
root, collecting `ALL_CHILDREN` records of every node reached, stopping
at the first missing child.  (The incrementally built `currentPath` of
the source is never read and is omitted.) -/
def ancestorScan : EventTrieNode → List String → String → EventType →
    List ListenerInfo → List ListenerInfo
  | _, [], _, _, acc => acc
  | n, seg :: rest, qpath, k, acc =>
    match getTrieChild n seg with
    | none => acc
    | some c =>
      ancestorScan c rest qpath k (tryAddListeners (ancestorCond qpath k) c.listeners acc)

/-- `EventManager::findListeners`: phase 1 collects matching records at
the exact node; phase 2 collects `DIRECT_CHILD` records registered at
the parent path; phase 3 collects `ALL_CHILDREN` records along all
ancestors of the query path.  Each phase skips ids already collected. -/
def findListeners (root : EventTrieNode) (path : String) (k : EventType) :
    List ListenerInfo :=
  let parts := splitPath path
  let acc1 :=
    match walkTrie root parts with
    | some exactNode => tryAddListeners (exactCond path k) exactNode.listeners []
    | none => []
  let acc2 :=
    match parts with
    | [] => acc1
    | _ :: _ =>
      let parentPath := joinPath parts.dropLast
      match walkTrie root (splitPath parentPath) with
      | some parentNode =>
        tryAddListeners
          (fun l => l.eventType == k && l.path == parentPath)
          (parentNode.listeners.filter
            (fun l => l.granularity == ListenGranularity.DIRECT_CHILD))
          acc1
      | none => acc1
  ancestorScan root parts path k acc2

/-- `EventManager`: the trie root, the monotone id source and the
id-to-path index. -/
structure EventManager where
  root : EventTrieNode
  nextId : Nat
  listenerPaths : List (Nat × String)

/-- A freshly constructed `EventManager` (`nextId = 1`). -/
def EventManager.empty : EventManager :=
  ⟨.mk [] [], 1, []⟩

/-- `EventManager::addListener`. -/
def addListener (m : EventManager) (path : String) (g : ListenGranularity)
    (k : EventType) : EventManager × Nat :=
  let id := m.nextId
  let info : ListenerInfo := ⟨id, path, g, k⟩
  (⟨insertListener m.root (splitPath path) info, m.nextId + 1,
    assocSet m.listenerPaths id path⟩, id)

/-- A listener registration request, as passed to `addListener`. -/
structure Registration where
  path : String
  granularity : ListenGranularity
  eventType : EventType

/-- Registers a batch of listeners in order. -/
def registerAll (m : EventManager) : List Registration → EventManager
  | [] => m
  | r :: rest => registerAll (addListener m r.path r.granularity r.eventType).1 rest

/-! ## The action pipeline (`ActionSystem.h`) -/

/-- `ActionHandlerType` of `ActionSystem.h`. -/
inductive ActionHandlerType where
  | TriggerListener
  | Validator
  | ValidationListener
  | SequentialProcessor
  | FinalProcessor
  | CompletionListener
deriving DecidableEq, Repr

/-- What a void-returning handler does when invoked: return normally or
throw a `std::exception` whose `what()` is `msg`. -/
inductive PBehavior where
  | ok
  | exc (msg : String)
deriving DecidableEq, Repr

/-- What a validator does when invoked: return a boolean or throw. -/
inductive VBehavior where
  | ret (b : Bool)
  | exc (msg : String)
deriving DecidableEq, Repr

/-- A `ProcessorHandler`: listeners, sequential processors and the final
processor.  The wrapped `std::function` is abstracted to its observable
behaviour. -/
structure ProcHandler where
  id : Nat
  description : String
  priority : Int
  behavior : PBehavior
deriving DecidableEq, Repr

/-- A `ValidatorHandler`. -/
structure ValHandler where
  id : Nat
  description : String
  priority : Int
  behavior : VBehavior
deriving DecidableEq, Repr

/-- `ActionProcessorContainer`: the six handler sets, with each list in
its stored (priority-sorted) order. -/
structure ActionProcessorContainer where
  triggerListeners : List ProcHandler
  validators : List ValHandler
  validationListeners : List ProcHandler
  sequentialProcessors : List ProcHandler
  finalProcessor : Option ProcHandler
  completionListeners : List ProcHandler
deriving Repr

/-- `ActionResult` (the `size_t` counters as `Nat`). -/
structure ActionResult where
  success : Bool
  validationPassed : Bool
  errorMessage : String
  totalValidators : Nat
  passedValidators : Nat
  totalProcessors : Nat
  executedProcessors : Nat
  totalListeners : Nat
  executedListeners : Nat
deriving DecidableEq, Repr

/-- The default-constructed `ActionResult`. -/
def ActionResult.init : ActionResult :=
  ⟨false, false, "", 0, 0, 0, 0, 0, 0⟩

/-- An invocation trace entry: which handler set a handler belonged to
and its id, recorded at the moment the handler is called. -/
abbrev ActionTrace := List (ActionHandlerType × Nat)

/-- The loop shared by stages 1, 3 and 6 of
`ActionProcessorContainer::Execute`: invoke every listener of the set;
an exception is caught and overwrites `errorMessage` (prefixed per
stage) without aborting; `executedListeners` counts the normal
returns. -/
def runListenersLoop (tag : ActionHandlerType) (msgPre : String) :
    List ProcHandler → ActionResult → ActionTrace → ActionResult × ActionTrace
  | [], res, tr => (res, tr)
  | l :: rest, res, tr =>
    match l.behavior with
    | .ok => runListenersLoop tag msgPre rest
        { res with executedListeners := res.executedListeners + 1 } (tr ++ [(tag, l.id)])
    | .exc m => runListenersLoop tag msgPre rest
        { res with errorMessage := msgPre ++ m } (tr ++ [(tag, l.id)])

/-- Stages 1, 3 and 6 of `Execute`: `totalListeners` is bumped by the
set's size before the loop runs. -/
def runListenerStage (tag : ActionHandlerType) (msgPre : String)
    (ls : List ProcHandler) (res : ActionResult) (tr : ActionTrace) :
    ActionResult × ActionTrace :=
  runListenersLoop tag msgPre ls
    { res with totalListeners := res.totalListeners + ls.length } tr

/-- Stage 2 of `Execute`: validators in order; the first `false` return
aborts with `"Validation failed by: " ++ description`, a throw aborts
with `"Validator error: " ++ what`; the boolean result flags the early
`return`. -/
def runValidators : List ValHandler → ActionResult → ActionTrace →
    ActionResult × ActionTrace × Bool
  | [], res, tr => (res, tr, false)
  | v :: rest, res, tr =>
    let tr := tr ++ [(ActionHandlerType.Validator, v.id)]
    match v.behavior with
    | .ret true =>
      runValidators rest { res with passedValidators := res.passedValidators + 1 } tr
    | .ret false =>
      ({ res with validationPassed := false,
                  errorMessage := "Validation failed by: " ++ v.description }, tr, true)
    | .exc m =>
      ({ res with validationPassed := false,
                  errorMessage := "Validator error: " ++ m }, tr, true)

/-- Stage 4 of `Execute`: sequential processors in order; a throw sets
`errorMessage`/`success := false` and aborts. -/
def runSeqProcessors : List ProcHandler → ActionResult → ActionTrace →
    ActionResult × ActionTrace × Bool
  | [], res, tr => (res, tr, false)
  | p :: rest, res, tr =>
    let tr := tr ++ [(ActionHandlerType.SequentialProcessor, p.id)]
    match p.behavior with
    | .ok =>
      runSeqProcessors rest
        { res with executedProcessors := res.executedProcessors + 1 } tr
    | .exc m =>
      ({ res with errorMessage := "Sequential processor error: " ++ m,
                  success := false }, tr, true)

/-- Stage 5 of `Execute`: the final processor, if present; on normal
return both `executedProcessors` and `totalProcessors` are incremented
(after the call), on a throw neither is and the pipeline aborts. -/
def runFinal : Option ProcHandler → ActionResult → ActionTrace →
    ActionResult × ActionTrace × Bool
  | none, res, tr => (res, tr, false)
  | some f, res, tr =>
    let tr := tr ++ [(ActionHandlerType.FinalProcessor, f.id)]
    match f.behavior with
    | .ok =>
      ({ res with executedProcessors := res.executedProcessors + 1,
                  totalProcessors := res.totalProcessors + 1 }, tr, false)
    | .exc m =>
      ({ res with errorMessage := "Final processor error: " ++ m,
                  success := false }, tr, true)

/-- `ActionProcessorContainer::Execute`: the six stages in order, with
the accounting and early returns of the source. -/
def Execute (c : ActionProcessorContainer) : ActionResult × ActionTrace :=
  let st1 := runListenerStage .TriggerListener "Trigger listener error: "
    c.triggerListeners ActionResult.init []
  let res := { st1.1 with totalValidators := c.validators.length }
  let st2 := runValidators c.validators res st1.2
  if st2.2.2 then (st2.1, st2.2.1) else
  let res := { st2.1 with validationPassed :=
    (st2.1.totalValidators == 0) || (st2.1.passedValidators == st2.1.totalValidators) }
  if !res.validationPassed && res.totalValidators != 0 then (res, st2.2.1) else
  let st3 := runListenerStage .ValidationListener "Validation listener error: "
    c.validationListeners res st2.2.1
  let res := { st3.1 with totalProcessors := c.sequentialProcessors.length }
  let st4 := runSeqProcessors c.sequentialProcessors res st3.2
  if st4.2.2 then (st4.1, st4.2.1) else
  let st5 := runFinal c.finalProcessor st4.1 st4.2.1
  if st5.2.2 then (st5.1, st5.2.1) else
  let st6 := runListenerStage .CompletionListener "Completion listener error: "
    c.completionListeners st5.1 st5.2.1
  ({ st6.1 with success := true }, st6.2)

/-- The ids of the trace entries belonging to one handler set. -/
def stageIds (tr : ActionTrace) (tag : ActionHandlerType) : List Nat :=
  (tr.filter (fun e => e.1 == tag)).map (fun e => e.2)

/-! ## The event bus (`KEventBus.h`) -/

/-- `SubscriptionMode` of `KEventBus.h`. -/
inductive SubscriptionMode where
  | Multicast
  | Unicast
deriving DecidableEq, Repr

/-- A type-erased subscription (`EventFunctionImpl` behind
`IEventFunction`): its token, its canonical argument-type string and
arity, and its description.  The wrapped callback is not part of the
dispatch decision; delivery is reported by token.  Tokens are modelled
by a monotone counter (the source draws random 128-bit ids; only
freshness is relied upon). -/
structure EBHandler where
  token : Nat
  argTypes : String
  argCount : Nat
  description : String
deriving DecidableEq, Repr

/-- `PublishResult` (counters as `Nat`; the source uses `int` and only
ever increments them). -/
structure PublishResult where
  success : Bool
  totalSubscribers : Nat
  successfulExecutions : Nat
  failedExecutions : Nat
  errorMessage : String
  publishedArgTypes : String
  failedSubscriberTypes : List String
  publishMode : SubscriptionMode
  allExpectedTypes : List String
deriving DecidableEq, Repr

/-- The `PublishResult` constructed at the top of `PublishImpl`
(default `success = true`, counters zero). -/
def PublishResult.start (published : String) (mode : SubscriptionMode) : PublishResult :=
  ⟨true, 0, 0, 0, "", published, [], mode, []⟩

/-- `PublishResult::AddSuccess`. -/
def PublishResult.addSuccess (r : PublishResult) : PublishResult :=
  { r with successfulExecutions := r.successfulExecutions + 1,
           totalSubscribers := r.totalSubscribers + 1,
           success := decide (r.successfulExecutions + 1 > 0) }

/-- `PublishResult::AddFailure`. -/
def PublishResult.addFailure (r : PublishResult) (expected : String) : PublishResult :=
  { r with failedExecutions := r.failedExecutions + 1,
           totalSubscribers := r.totalSubscribers + 1,
           failedSubscriberTypes := r.failedSubscriberTypes ++ [expected],
           allExpectedTypes := r.allExpectedTypes ++ [expected],
           success := decide (r.successfulExecutions > 0) }

/-- The `EventBus` state, generic over the key type: the multicast
handler lists, the single-slot unicast handlers, the once-token records
for both modes, the token-to-key index, and the token source. -/
structure EventBusState (K : Type) where
  multicastEventHandlers : List (K × List EBHandler)
  unicastEventHandlers : List (K × EBHandler)
  multicastOnceEventHandlers : List (K × List Nat)
  unicastOnceEventHandlers : List (K × Nat)
  tokenToEventNameMap : List (Nat × K)
  nextToken : Nat

/-- A freshly constructed `EventBus`. -/
def EventBusState.empty (K : Type) : EventBusState K :=
  ⟨[], [], [], [], [], 1⟩

/-- `EventBus::SubscribeDetailed`: a unicast subscription first evicts
any prior handler for the key (dropping the key's once-record and the
old handler's token mapping), then installs itself; a multicast
subscription appends.  A `once` subscription also records its token in
the mode's once map.  Returns the new state and the fresh token. -/
def subscribeDetailed {K : Type} [DecidableEq K] (bus : EventBusState K) (k : K)
    (argTypes : String) (argCount : Nat) (description : String) (once : Bool)
    (mode : SubscriptionMode) : EventBusState K × Nat :=
  let token := bus.nextToken
  let handler : EBHandler := ⟨token, argTypes, argCount, description⟩
  match mode with
  | .Unicast =>
    let bus :=
      match assocGet bus.unicastEventHandlers k with
      | some old =>
        { bus with
          unicastOnceEventHandlers := assocErase bus.unicastOnceEventHandlers k,
          tokenToEventNameMap := assocErase bus.tokenToEventNameMap old.token }
      | none => bus
    let bus := { bus with
      unicastEventHandlers := assocSet bus.unicastEventHandlers k handler }
    let bus :=
      if once then
        { bus with unicastOnceEventHandlers := assocSet bus.unicastOnceEventHandlers k token }
      else bus
    ({ bus with tokenToEventNameMap := assocSet bus.tokenToEventNameMap token k,
                nextToken := bus.nextToken + 1 }, token)
  | .Multicast =>
    let bus := { bus with
      multicastEventHandlers := assocSet bus.multicastEventHandlers k
        (((assocGet bus.multicastEventHandlers k).getD []) ++ [handler]) }
    let bus :=
      if once then
        { bus with
          multicastOnceEventHandlers := assocSet bus.multicastOnceEventHandlers k
            (((assocGet bus.multicastOnceEventHandlers k).getD []) ++ [token]) }
      else bus
    ({ bus with tokenToEventNameMap := assocSet bus.tokenToEventNameMap token k,
                nextToken := bus.nextToken + 1 }, token)

/-- Erases the first handler with the given token from a handler list,
returning the new list and whether a removal occurred. -/
def eraseFirstHandler : List EBHandler → Nat → List EBHandler × Bool
  | [], _ => ([], false)
  | h :: rest, token =>
    if h.token = token then (rest, true)
    else
      let r := eraseFirstHandler rest token
      (h :: r.1, r.2)

/-- Erases the first occurrence of a token from a once-token list,
returning the new list and whether a removal occurred. -/
def eraseFirstToken : List Nat → Nat → List Nat × Bool
  | [], _ => ([], false)
  | t :: rest, token =>
    if t = token then (rest, true)
    else
      let r := eraseFirstToken rest token
      (t :: r.1, r.2)

/-- `EventBus::Unsubscribe`: locate the owning key through the token
index, then remove the handler from the multicast list (erasing the key
when the list empties), the unicast slot, the multicast once list
(likewise erasing an emptied key), the unicast once record, and finally
the token index itself. -/
def unsubscribe {K : Type} [DecidableEq K] (bus : EventBusState K) (token : Nat) :
    EventBusState K × Bool :=
  match assocGet bus.tokenToEventNameMap token with
  | none => (bus, false)
  | some k =>
    let bus :=
      match assocGet bus.multicastEventHandlers k with
      | some hs =>
        let r := eraseFirstHandler hs token
        if r.2 then
          if r.1.isEmpty then
            { bus with multicastEventHandlers := assocErase bus.multicastEventHandlers k }
          else
            { bus with multicastEventHandlers := assocSet bus.multicastEventHandlers k r.1 }
        else bus
      | none => bus
    let bus :=
      match assocGet bus.unicastEventHandlers k with
      | some h =>
        if h.token = token then
          { bus with unicastEventHandlers := assocErase bus.unicastEventHandlers k }
        else bus
      | none => bus
    let bus :=
      match assocGet bus.multicastOnceEventHandlers k with
      | some toks =>
        let r := eraseFirstToken toks token
        if r.2 then
          if r.1.isEmpty then
            { bus with multicastOnceEventHandlers := assocErase bus.multicastOnceEventHandlers k }
          else
            { bus with multicastOnceEventHandlers := assocSet bus.multicastOnceEventHandlers k r.1 }
        else bus
      | none => bus
    let bus :=
      match assocGet bus.unicastOnceEventHandlers k with
      | some tk =>
        if tk = token then
          { bus with unicastOnceEventHandlers := assocErase bus.unicastOnceEventHandlers k }
        else bus
      | none => bus
    ({ bus with tokenToEventNameMap := assocErase bus.tokenToEventNameMap token }, true)

/-- The state of the multicast dispatch loop of `PublishImpl`. -/
structure MulticastLoopState where
  result : PublishResult
  delivered : List Nat
  tokensToRemove : List Nat
  anySuccess : Bool

/-- One iteration of the multicast dispatch loop: a handler whose arity
or argument-type string differs from the published ones is counted as a
failure; otherwise it is invoked (recorded in `delivered`) and, if its
token is in the key's once list, queued for removal. -/
def multicastStep (onceToks : List Nat) (argTypes : String) (argCount : Nat)
    (st : MulticastLoopState) (h : EBHandler) : MulticastLoopState :=
  if h.argCount != argCount || h.argTypes != argTypes then
    { st with result := st.result.addFailure h.argTypes }
  else
    { st with
      result := st.result.addSuccess,
      delivered := st.delivered ++ [h.token],
      anySuccess := true,
      tokensToRemove :=
        if h.token ∈ onceToks then st.tokensToRemove ++ [h.token] else st.tokensToRemove }

/-- Comma-separated rendering of the expected-type list, as the
failure-message loop of `PublishImpl` builds it. -/
def commaJoin : List String → String
  | [] => ""
  | [s] => s
  | s :: rest => s ++ ", " ++ commaJoin rest

/-- `EventBus::PublishImpl`, returning the new state, the
`PublishResult` and the tokens delivered to, in delivery order.  The
caller's canonical argument-type string and arity stand for the
decayed-`Args` data the template computes.  A matching handler's
`ExecuteWithForward` succeeds (its null-pointer check cannot fail for
arguments the publish itself materialised).  Once-removals run after
the dispatch loop, via `Unsubscribe`. -/
def publishImpl {K : Type} [DecidableEq K] (bus : EventBusState K) (k : K)
    (mode : SubscriptionMode) (argTypes : String) (argCount : Nat) :
    EventBusState K × PublishResult × List Nat :=
  let res0 := PublishResult.start argTypes mode
  match mode with
  | .Unicast =>
    match assocGet bus.unicastEventHandlers k with
    | none =>
      (bus, { res0 with success := false, errorMessage := "单播事件未找到" }, [])
    | some h =>
      if h.argCount != argCount || h.argTypes != argTypes then
        (bus, { (res0.addFailure h.argTypes) with errorMessage := "单播事件参数类型不匹配" }, [])
      else
        let res := res0.addSuccess
        match assocGet bus.unicastOnceEventHandlers k with
        | some tok => ((unsubscribe bus tok).1, res, [h.token])
        | none => (bus, res, [h.token])
  | .Multicast =>
    match assocGet bus.multicastEventHandlers k with
    | none =>
      (bus, { res0 with success := false, errorMessage := "多播事件未找到" }, [])
    | some hs =>
      let onceToks := (assocGet bus.multicastOnceEventHandlers k).getD []
      let st := hs.foldl (multicastStep onceToks argTypes argCount)
        ⟨res0, [], [], false⟩
      let res := { st.result with success := st.anySuccess }
      let res :=
        if !st.anySuccess && res.failedExecutions != 0 then
          { res with errorMessage :=
            "所有 " ++ toString res.totalSubscribers ++ " 个订阅者都执行失败。" ++
            "发布的参数类型: " ++ res.publishedArgTypes ++ "。" ++
            "期望的参数类型: " ++ commaJoin res.allExpectedTypes }
        else res
      let bus := st.tokensToRemove.foldl (fun b tok => (unsubscribe b tok).1) bus
      (bus, res, st.delivered)

/-- `EventBus::GetSubscriberCount` (multicast). -/
def getSubscriberCount {K : Type} [DecidableEq K] (bus : EventBusState K) (k : K) : Nat :=
  ((assocGet bus.multicastEventHandlers k).getD []).length

/-! ## Specification helpers and concrete scenarios -/

/-- The children map `editAtParent`'s mutation is applied to: the same
walk as `editAtParent`, but reporting the pre-mutation children of the
final parent (a fresh empty map as soon as an intermediate was missing
or not an object). -/
def sourceAt : NodeChildren → List String → NodeChildren
  | cs, [] => cs
  | cs, seg :: rest =>
    match getChild cs seg with
    | some (BaseNode.objectNode _ sub) => sourceAt sub rest
    | _ => sourceAt [] rest

/-- The number of listeners in a set that return normally. -/
def okCount : List ProcHandler → Nat
  | [] => 0
  | l :: rest =>
    (match l.behavior with
     | .ok => 1
     | .exc _ => 0) + okCount rest

/-- The `errorMessage` left behind by a listener stage: the last thrown
message, prefixed, or the incoming message if none threw. -/
def lastErr (msgPre : String) : List ProcHandler → String → String
  | [], e => e
  | l :: rest, e =>
    match l.behavior with
    | .ok => lastErr msgPre rest e
    | .exc m => lastErr msgPre rest (msgPre ++ m)

/-- A listener record is stored at the trie node reached by `segs`. -/
def trieMem (t : EventTrieNode) (segs : List String) (L : ListenerInfo) : Prop :=
  ∃ n, walkTrie t segs = some n ∧ L ∈ n.listeners

/-- Scenario 3 of the spec: a populated subtree `s` (a leaf `s/v` and a
nested object `s/sub` with leaf `s/sub/v2`). -/
def moveDemoTree : StatePath :=
  (setInt (setInt StatePath.empty "s/v" 5).1 "s/sub/v2" 6).1

/-- `move("s", "t")` on the populated subtree. -/
def moveDemo : StatePath × Bool × List PathEvent :=
  moveNode moveDemoTree "s" "t"

/-- A container holding only a throwing final processor. -/
def finThrowContainer : ActionProcessorContainer :=
  ⟨[], [], [], [], some ⟨1, "final", 0, .exc "boom"⟩, []⟩

/-- A container whose second sequential processor throws, with handlers
in every set. -/
def seqThrowContainer : ActionProcessorContainer :=
  ⟨[], [⟨1, "v", 0, .ret true⟩], [],
   [⟨2, "p1", 0, .ok⟩, ⟨3, "p2", 0, .exc "bad"⟩, ⟨4, "p3", 0, .ok⟩],
   some ⟨5, "fin", 0, .ok⟩, [⟨6, "c", 0, .ok⟩]⟩

/-- A container whose second validator returns `false`, with handlers in
every set. -/
def valFalseContainer : ActionProcessorContainer :=
  ⟨[⟨1, "t", 0, .ok⟩],
   [⟨2, "v1", 0, .ret true⟩, ⟨3, "v2", 0, .ret false⟩, ⟨4, "v3", 0, .ret true⟩],
   [⟨5, "vl", 0, .ok⟩], [⟨6, "p", 0, .ok⟩], some ⟨7, "f", 0, .ok⟩,
   [⟨8, "c", 0, .ok⟩]⟩

/-- A subtree listener registered at the root path `""`. -/
def rootSubtreeManager : EventManager :=
  registerAll EventManager.empty [⟨"", .ALL_CHILDREN, .ADD⟩]

/-- A subtree listener registered at the non-normalized path `"/x"`. -/
def slashSubtreeManager : EventManager :=
  registerAll EventManager.empty [⟨"/x", .ALL_CHILDREN, .ADD⟩]

/-- Two consecutive unicast subscriptions on the same key: the scenario
of the unicast-eviction claim. -/
def subscribeTwiceUnicast {K : Type} [DecidableEq K] (bus : EventBusState K) (k : K)
    (a1 : String) (c1 : Nat) (d1 : String) (o1 : Bool)
    (a2 : String) (c2 : Nat) (d2 : String) (o2 : Bool) : EventBusState K :=
  (subscribeDetailed (subscribeDetailed bus k a1 c1 d1 o1 SubscriptionMode.Unicast).1
    k a2 c2 d2 o2 SubscriptionMode.Unicast).1

/-- A once multicast subscription followed by a plain multicast
subscription on the same key, with the same signature: the scenario of
the once-removal claim. -/
def subscribeOnceThenPlain {K : Type} [DecidableEq K] (bus : EventBusState K) (k : K)
    (argTypes : String) (argCount : Nat) (d1 d2 : String) : EventBusState K :=
  (subscribeDetailed (subscribeDetailed bus k argTypes argCount d1 true
      SubscriptionMode.Multicast).1
    k argTypes argCount d2 false SubscriptionMode.Multicast).1

/-- A tree with an existing object node at `"a"`. -/
def objDemoTree : StatePath :=
  (setObject StatePath.empty "a").1

/-- A tree with an existing string node at `"a"`. -/
def strDemoTree : StatePath :=
  (setString StatePath.empty "a" "hello").1

/-! ## Association-list lemmas -/

theorem assocGet_set_self {κ α : Type} [DecidableEq κ] (l : List (κ × α)) (k : κ) (v : α) :
    assocGet (assocSet l k v) k = some v := by
  induction l with
  | nil => simp [assocSet, assocGet]
  | cons hd tl ih =>
    obtain ⟨k0, v0⟩ := hd
    by_cases h : k0 = k <;> simp [assocSet, assocGet, h, ih]

theorem assocGet_set_ne {κ α : Type} [DecidableEq κ] (l : List (κ × α)) (k q : κ) (v : α)
    (h : k ≠ q) : assocGet (assocSet l k v) q = assocGet l q := by
  induction l with
  | nil => simp [assocSet, assocGet, h]
  | cons hd tl ih =>
    obtain ⟨k0, v0⟩ := hd
    by_cases h0 : k0 = k
    · subst h0
      simp [assocSet, assocGet, h]
    · simp [assocSet, assocGet, h0, ih]

theorem assocGet_none_of_not_mem_keys {κ α : Type} [DecidableEq κ] (l : List (κ × α)) (k : κ)
    (h : k ∉ l.map Prod.fst) : assocGet l k = none := by
  induction l with
  | nil => simp [assocGet]
  | cons hd tl ih =>
    obtain ⟨k0, v0⟩ := hd
    simp only [List.map_cons, List.mem_cons, not_or] at h
    have h0 : ¬k0 = k := fun hc => h.1 hc.symm
    simp [assocGet, h0, ih h.2]

theorem keys_set_subset {κ α : Type} [DecidableEq κ] (l : List (κ × α)) (k q : κ) (v : α)
    (h : q ∈ (assocSet l k v).map Prod.fst) : q ∈ l.map Prod.fst ∨ q = k := by
  induction l with
  | nil =>
    simp [assocSet] at h
    exact Or.inr h
  | cons hd tl ih =>
    obtain ⟨k0, v0⟩ := hd
    by_cases h0 : k0 = k
    · subst h0
      simp [assocSet] at h
      rcases h with h | h
      · exact Or.inl (by simp [h])
      · exact Or.inl (by simp [h])
    · simp only [assocSet, if_neg h0, List.map_cons, List.mem_cons] at h
      rcases h with h | h
      · exact Or.inl (by simp [h])
      · rcases ih h with h' | h'
        · exact Or.inl (by simp [h'])
        · exact Or.inr h'

theorem keys_set_nodup {κ α : Type} [DecidableEq κ] (l : List (κ × α)) (k : κ) (v : α)
    (h : (l.map Prod.fst).Nodup) : ((assocSet l k v).map Prod.fst).Nodup := by
  induction l with
  | nil => simp [assocSet]
  | cons hd tl ih =>
    obtain ⟨k0, v0⟩ := hd
    simp only [List.map_cons, List.nodup_cons] at h
    by_cases h0 : k0 = k
    · subst h0
      simpa [assocSet] using h
    · simp only [assocSet, if_neg h0, List.map_cons, List.nodup_cons]
      refine ⟨?_, ih h.2⟩
      intro hmem
      rcases keys_set_subset tl k k0 v hmem with h' | h'
      · exact h.1 h'
      · exact h0 h'

theorem keys_erase_sublist {κ α : Type} [DecidableEq κ] (l : List (κ × α)) (k : κ) :
    ((assocErase l k).map Prod.fst).Sublist (l.map Prod.fst) := by
  induction l with
  | nil => simp [assocErase]
  | cons hd tl ih =>
    obtain ⟨k0, v0⟩ := hd
    by_cases h0 : k0 = k
    · simp only [assocErase, if_pos h0]
      exact List.sublist_cons_self k0 (tl.map Prod.fst)
    · simpa [assocErase, h0] using List.Sublist.cons₂ k0 ih

theorem keys_erase_nodup {κ α : Type} [DecidableEq κ] (l : List (κ × α)) (k : κ)
    (h : (l.map Prod.fst).Nodup) : ((assocErase l k).map Prod.fst).Nodup :=
  (keys_erase_sublist l k).nodup h

theorem assocGet_erase_self {κ α : Type} [DecidableEq κ] (l : List (κ × α)) (k : κ)
    (h : (l.map Prod.fst).Nodup) : assocGet (assocErase l k) k = none := by
  induction l with
  | nil => simp [assocErase, assocGet]
  | cons hd tl ih =>
    obtain ⟨k0, v0⟩ := hd
    simp only [List.map_cons, List.nodup_cons] at h
    by_cases h0 : k0 = k
    · subst h0
      simpa [assocErase] using assocGet_none_of_not_mem_keys tl k0 h.1
    · simp [assocErase, assocGet, h0, ih h.2]

theorem assocErase_set_of_none {κ α : Type} [DecidableEq κ] (l : List (κ × α)) (k : κ) (v : α)
    (h : assocGet l k = none) : assocErase (assocSet l k v) k = l := by
  induction l with
  | nil => simp [assocSet, assocErase]
  | cons hd tl ih =>
    obtain ⟨k0, v0⟩ := hd
    by_cases h0 : k0 = k
    · subst h0
      simp [assocGet] at h
    · simp only [assocGet, if_neg h0] at h
      simp [assocSet, assocErase, h0, ih h]

theorem assocGet_isSome_of_eq {κ α : Type} [DecidableEq κ] {l : List (κ × α)} {k : κ} {v : α}
    (h : assocGet l k = some v) : (assocGet l k).isSome = true := by
  simp [h]

/-! ## State-tree lemmas -/

theorem addChild_self (cs : NodeChildren) (name : String) (v : BaseNode)
    (h : getChild cs name = some v) : addChild cs name v = cs := by
  induction cs with
  | nil => simp [getChild, assocGet] at h
  | cons hd tl ih =>
    obtain ⟨k0, v0⟩ := hd
    by_cases h0 : k0 = name
    · subst h0
      have hv : v0 = v := by simpa [getChild, assocGet] using h
      subst hv
      simp [addChild, assocSet]
    · simp only [getChild, assocGet, if_neg h0] at h
      simp only [addChild, assocSet, if_neg h0, List.cons.injEq, true_and]
      exact ih h

theorem sourceAt_nil (l : List String) : sourceAt [] l = [] := by
  induction l with
  | nil => rfl
  | cons seg rest ih => simp [sourceAt, getChild, assocGet, ih]

theorem descendNoCreate_sourceAt (l : List String) :
    ∀ (cs cs0 : NodeChildren), descendNoCreate cs l = some cs0 → sourceAt cs l = cs0 := by
  induction l with
  | nil =>
    intro cs cs0 h
    simpa [descendNoCreate, sourceAt] using h
  | cons seg rest ih =>
    intro cs cs0 h
    simp only [descendNoCreate] at h
    simp only [sourceAt]
    cases hg : getChild cs seg with
    | none => rw [hg] at h; exact absurd h (by simp)
    | some nd =>
      rw [hg] at h
      cases nd with
      | objectNode abs sub => exact ih sub cs0 h
      | intNode v => exact absurd h (by simp)
      | floatNode v => exact absurd h (by simp)
      | boolNode v => exact absurd h (by simp)
      | pointerNode v => exact absurd h (by simp)
      | stringNode v => exact absurd h (by simp)

theorem descendNoCreate_none_sourceAt (l : List String) :
    ∀ (cs : NodeChildren), descendNoCreate cs l = none → sourceAt cs l = [] := by
  induction l with
  | nil => intro cs h; simp [descendNoCreate] at h
  | cons seg rest ih =>
    intro cs h
    simp only [descendNoCreate] at h
    simp only [sourceAt]
    cases hg : getChild cs seg with
    | none => rw [hg] at h; exact sourceAt_nil rest
    | some nd =>
      rw [hg] at h
      cases nd with
      | objectNode abs sub => exact ih sub h
      | intNode v => exact sourceAt_nil rest
      | floatNode v => exact sourceAt_nil rest
      | boolNode v => exact sourceAt_nil rest
      | pointerNode v => exact sourceAt_nil rest
      | stringNode v => exact sourceAt_nil rest

theorem editAtParent_spec (l : List String) :
    ∀ (cs : NodeChildren) (a : String)
      (f : NodeChildren → NodeChildren × List PathEvent × List ErrorReport),
      (editAtParent cs a l f).2 = (f (sourceAt cs l)).2 ∧
      descendNoCreate (editAtParent cs a l f).1 l = some (f (sourceAt cs l)).1 := by
  induction l with
  | nil =>
    intro cs a f
    simp [editAtParent, sourceAt, descendNoCreate]
  | cons seg rest ih =>
    intro cs a f
    cases hg : getChild cs seg with
    | some nd =>
      cases nd with
      | objectNode abs sub =>
        have h := ih sub abs f
        refine ⟨?_, ?_⟩
        · simp only [editAtParent, sourceAt, hg]
          exact h.1
        · simp only [editAtParent, sourceAt, hg]
          simp only [descendNoCreate, getChild, addChild, assocGet_set_self]
          exact h.2
      | intNode v =>
        have h := ih [] (combinePath a seg) f
        refine ⟨?_, ?_⟩
        · simp only [editAtParent, sourceAt, hg]
          exact h.1
        · simp only [editAtParent, sourceAt, hg]
          simp only [descendNoCreate, getChild, addChild, assocGet_set_self]
          exact h.2
      | floatNode v =>
        have h := ih [] (combinePath a seg) f
        refine ⟨?_, ?_⟩
        · simp only [editAtParent, sourceAt, hg]
          exact h.1
        · simp only [editAtParent, sourceAt, hg]
          simp only [descendNoCreate, getChild, addChild, assocGet_set_self]
          exact h.2
      | boolNode v =>
        have h := ih [] (combinePath a seg) f
        refine ⟨?_, ?_⟩
        · simp only [editAtParent, sourceAt, hg]
          exact h.1
        · simp only [editAtParent, sourceAt, hg]
          simp only [descendNoCreate, getChild, addChild, assocGet_set_self]
          exact h.2
      | pointerNode v =>
        have h := ih [] (combinePath a seg) f
        refine ⟨?_, ?_⟩
        · simp only [editAtParent, sourceAt, hg]
          exact h.1
        · simp only [editAtParent, sourceAt, hg]
          simp only [descendNoCreate, getChild, addChild, assocGet_set_self]
          exact h.2
      | stringNode v =>
        have h := ih [] (combinePath a seg) f
        refine ⟨?_, ?_⟩
        · simp only [editAtParent, sourceAt, hg]
          exact h.1
        · simp only [editAtParent, sourceAt, hg]
          simp only [descendNoCreate, getChild, addChild, assocGet_set_self]
          exact h.2
    | none =>
      have h := ih [] (combinePath a seg) f
      refine ⟨?_, ?_⟩
      · simp only [editAtParent, sourceAt, hg]
        exact h.1
      · simp only [editAtParent, sourceAt, hg]
        simp only [descendNoCreate, getChild, addChild, assocGet_set_self]
        exact h.2

theorem editAtParent_id (l : List String) :
    ∀ (cs cs0 : NodeChildren) (a : String)
      (f : NodeChildren → NodeChildren × List PathEvent × List ErrorReport),
      descendNoCreate cs l = some cs0 → (f cs0).1 = cs0 →
      editAtParent cs a l f = (cs, (f cs0).2) := by
  induction l with
  | nil =>
    intro cs cs0 a f hd hf
    simp only [descendNoCreate, Option.some.injEq] at hd
    subst hd
    simp [editAtParent]
    exact Prod.ext hf rfl
  | cons seg rest ih =>
    intro cs cs0 a f hd hf
    simp only [descendNoCreate] at hd
    cases hg : getChild cs seg with
    | none => rw [hg] at hd; exact absurd hd (by simp)
    | some nd =>
      rw [hg] at hd
      cases nd with
      | objectNode abs sub =>
        have h := ih sub cs0 abs f hd hf
        simp only [editAtParent, hg, h]
        rw [addChild_self cs seg (BaseNode.objectNode abs sub) hg]
      | intNode v => exact absurd hd (by simp)
      | floatNode v => exact absurd hd (by simp)
      | boolNode v => exact absurd hd (by simp)
      | pointerNode v => exact absurd hd (by simp)
      | stringNode v => exact absurd hd (by simp)

theorem leafValOf_mkLeafNode (lv : LeafVal) : leafValOf (mkLeafNode lv) = some lv := by
  cases lv <;> rfl

theorem getType_mkLeafNode (lv : LeafVal) : (mkLeafNode lv).getType = lv.kind := by
  cases lv <;> rfl

/-! ## Claim theorems: state tree -/

/-- Claim C9 (confirmed): on the empty path the read interface does not
treat the root as a present node — `hasNode ""` is `false` and
`getNodeType ""` is `EMPTY` although the root object always exists —
while `getChildNames ""` and `forEachChild ""` enumerate the root
object's children. -/
theorem emptyPath_read_semantics (t : StatePath) :
    hasNode t "" = false ∧ getNodeType t "" = NodeType.EMPTY ∧
    getChildNames t "" = childNames t.rootChildren ∧
    forEachChildList t "" = t.rootChildren :=
  ⟨rfl, rfl, rfl, rfl⟩

/-- Claim C1 (code bug): on the populated subtree `s`, `move("s","t")`
succeeds, emits exactly one `MOVE` event with `path="s",
relatedPath="t"` and no `ADD`/`REMOVE`, the values are reachable under
`t` and `has("s")` is false afterwards — but the absolute paths stored
in the moved `Object` nodes are NOT rewritten: the node now attached at
`"t"` still stores absolute path `"s"` and its child object still
stores `"s/sub"`.  `moveNode` never calls `updateNodePath`, so the
claim's (and spec §3/§4.C.3's) path-rewrite clause fails on the code. -/
theorem moveNode_leaves_absolute_paths :
    moveDemo.2.1 = true ∧
    moveDemo.2.2 = [⟨EventType.MOVE, "s", "t", NodeType.OBJECT⟩] ∧
    hasNode moveDemo.1 "t" = true ∧
    hasNode moveDemo.1 "s" = false ∧
    getLeafVal moveDemo.1 "t/v" = some (LeafVal.intV 5) ∧
    getLeafVal moveDemo.1 "t/sub/v2" = some (LeafVal.intV 6) ∧
    getNode moveDemo.1 "t" =
      some (BaseNode.objectNode "s"
        [("v", BaseNode.intNode 5),
         ("sub", BaseNode.objectNode "s/sub" [("v2", BaseNode.intNode 6)])]) ∧
    getNode moveDemo.1 "t/sub" =
      some (BaseNode.objectNode "s/sub" [("v2", BaseNode.intNode 6)]) :=
  ⟨rfl, rfl, rfl, rfl, rfl, rfl, rfl, rfl⟩

/-- Claim C2 (code bug): `Execute` on a container with no sequential
processors and a throwing final processor reaches stage 4 and aborts in
stage 5 with `totalProcessors = 0`, although the claim (and spec §9's
standardization) requires `totalProcessors = |SequentialProcessors| + 1
= 1` whenever a final processor is present; the source increments
`totalProcessors` for the final processor only after it returns
normally. -/
theorem execute_finalThrow_totalProcessors :
    finThrowContainer.finalProcessor.isSome = true ∧
    finThrowContainer.sequentialProcessors.length = 0 ∧
    (Execute finThrowContainer).1.totalProcessors = 0 ∧
    (Execute finThrowContainer).1.success = false ∧
    (Execute finThrowContainer).1.errorMessage = "Final processor error: boom" := by
  refine ⟨rfl, rfl, ?_, ?_, ?_⟩ <;> rfl

theorem getNode_decomp (t : StatePath) (p : String) (nd : BaseNode)
    (h : getNode t p = some nd) :
    ∃ interm name cs, splitParentName p = some (interm, name) ∧
      descendNoCreate t.rootChildren interm = some cs ∧ getChild cs name = some nd := by
  unfold getNode getParentAndNameNoCreate at h
  cases hs : splitParentName p with
  | none => rw [hs] at h; simp at h
  | some pn =>
    obtain ⟨interm, name⟩ := pn
    rw [hs] at h
    cases hdc : descendNoCreate t.rootChildren interm with
    | none => simp only [hdc] at h; simp at h
    | some cs =>
      simp only [hdc] at h
      exact ⟨interm, name, cs, rfl, hdc, h⟩

/-- Claim C10 (confirmed): when the node at `p` is an existing `Object`,
`setObject p` leaves the tree completely unchanged and its only
observable effect is a single `UPDATE` event at `p` (no error report). -/
theorem setObject_frame (t : StatePath) (p : String)
    (h : getNodeType t p = NodeType.OBJECT) (he : t.enableEvents = true) :
    setObject t p = (t, [⟨EventType.UPDATE, p, "", NodeType.OBJECT⟩], []) := by
  have hnode : ∃ nd, getNode t p = some nd ∧ nd.getType = NodeType.OBJECT := by
    unfold getNodeType at h
    cases hn : getNode t p with
    | none => rw [hn] at h; exact absurd h (by decide)
    | some nd => rw [hn] at h; exact ⟨nd, rfl, h⟩
  obtain ⟨nd, hn, hty⟩ := hnode
  obtain ⟨abs, sub, rfl⟩ : ∃ abs sub, nd = BaseNode.objectNode abs sub := by
    cases nd with
    | objectNode abs sub => exact ⟨abs, sub, rfl⟩
    | intNode v => simp [BaseNode.getType] at hty
    | floatNode v => simp [BaseNode.getType] at hty
    | boolNode v => simp [BaseNode.getType] at hty
    | pointerNode v => simp [BaseNode.getType] at hty
    | stringNode v => simp [BaseNode.getType] at hty
  obtain ⟨interm, name, cs0, hs, hdc, hgc⟩ := getNode_decomp t p _ hn
  have hid := editAtParent_id interm t.rootChildren cs0 ""
    (fun cs =>
      match getChild cs name with
      | some old =>
        if old.getType = NodeType.OBJECT then
          (cs, triggerEvent t .UPDATE p "" (some old), [])
        else
          (addChild cs name (BaseNode.objectNode p []),
           triggerEvent t (if hasNode t p then .UPDATE else .ADD) p ""
             (some (BaseNode.objectNode p [])),
           [ErrorReport.typeMismatch p])
      | none =>
        (addChild cs name (BaseNode.objectNode p []),
         triggerEvent t (if hasNode t p then .UPDATE else .ADD) p ""
           (some (BaseNode.objectNode p [])), []))
    hdc (by simp [hgc, BaseNode.getType])
  simp only [setObject, hs]
  rw [hid]
  simp [hgc, BaseNode.getType, triggerEvent, he]
  rw [← he]

/-- Witness for `setObject_frame` on a concrete tree. -/
theorem setObject_frame_witness :
    setObject objDemoTree "a" =
      (objDemoTree, [⟨EventType.UPDATE, "a", "", NodeType.OBJECT⟩], []) :=
  setObject_frame objDemoTree "a" (by decide) rfl

theorem setLeafStep_fst (t : StatePath) (path : String) (lv : LeafVal) (name : String)
    (e : Bool) (cs : NodeChildren) :
    (setLeafStep t path lv name e cs).1 = addChild cs name (mkLeafNode lv) := by
  cases hgc : getChild cs name with
  | none => simp [setLeafStep, hgc]
  | some old =>
    by_cases ht : old.getType = lv.kind
    · simp [setLeafStep, hgc, ht]
    · simp [setLeafStep, hgc, ht]

theorem hasNode_of_decomp (t : StatePath) (p : String) (interm : List String)
    (name : String) (cs : NodeChildren) (nd : BaseNode)
    (hs : splitParentName p = some (interm, name))
    (hdc : descendNoCreate t.rootChildren interm = some cs)
    (hgc : getChild cs name = some nd) : hasNode t p = true := by
  have hgc2 : assocGet cs name = some nd := hgc
  simp [hasNode, getParentAndNameNoCreate, hs, hdc, hasChild, hgc2]

/-- Claim C8 (confirmed): for every path with at least one segment and
every leaf kind, immediately after `set<K>(p, v)` the node at `p`
exists, has kind `K`, and reads back as `v`; and when `p` previously
held a node of a different kind, that node is replaced and the call
emits exactly one `UPDATE` event plus one type-mismatch error report. -/
theorem setLeafValue_spec (t : StatePath) (p : String) (lv : LeafVal)
    (hp : splitPath p ≠ []) (he : t.enableEvents = true) :
    hasNode (setLeafValue t p lv).1 p = true ∧
    getNodeType (setLeafValue t p lv).1 p = lv.kind ∧
    getLeafVal (setLeafValue t p lv).1 p = some lv ∧
    (∀ old, getNode t p = some old → old.getType ≠ lv.kind →
      (setLeafValue t p lv).2.1 = [⟨EventType.UPDATE, p, "", lv.kind⟩] ∧
      (setLeafValue t p lv).2.2 = [ErrorReport.typeMismatch p]) := by
  obtain ⟨name, hlast⟩ : ∃ name, (splitPath p).getLast? = some name := by
    cases hq : splitPath p with
    | nil => exact absurd hq hp
    | cons a l => exact ⟨(a :: l).getLast (by simp), List.getLast?_eq_getLast _ _⟩
  have hs : splitParentName p = some ((splitPath p).dropLast, name) := by
    simp [splitParentName, hlast]
  have hspec := editAtParent_spec (splitPath p).dropLast t.rootChildren ""
    (setLeafStep t p lv name (hasNode t p))
  have hval : setLeafValue t p lv =
      ({ t with rootChildren :=
          (editAtParent t.rootChildren "" (splitPath p).dropLast
            (setLeafStep t p lv name (hasNode t p))).1 },
        (editAtParent t.rootChildren "" (splitPath p).dropLast
          (setLeafStep t p lv name (hasNode t p))).2) := by
    simp only [setLeafValue, hs]
  have hdc2 : descendNoCreate
      (editAtParent t.rootChildren "" (splitPath p).dropLast
        (setLeafStep t p lv name (hasNode t p))).1 (splitPath p).dropLast =
      some (addChild (sourceAt t.rootChildren (splitPath p).dropLast) name
        (mkLeafNode lv)) := by
    rw [hspec.2, setLeafStep_fst]
  have hget : getNode ({ t with rootChildren :=
      (editAtParent t.rootChildren "" (splitPath p).dropLast
        (setLeafStep t p lv name (hasNode t p))).1 } : StatePath) p =
      some (mkLeafNode lv) := by
    simp only [getNode, getParentAndNameNoCreate, hs, hdc2]
    simp only [getChild, addChild, assocGet_set_self]
  refine ⟨?_, ?_, ?_, ?_⟩
  · rw [hval]
    exact hasNode_of_decomp _ p _ name _ (mkLeafNode lv) hs hdc2
      (by simp [getChild, addChild, assocGet_set_self])
  · rw [hval, getNodeType, hget]
    simp [getType_mkLeafNode]
  · rw [hval, getLeafVal, hget]
    simp [leafValOf_mkLeafNode]
  · intro old hold hne
    obtain ⟨interm2, name2, cs2, hs2, hdc0, hgc⟩ := getNode_decomp t p old hold
    rw [hs] at hs2
    have h12 := Option.some.inj hs2
    have hi : (splitPath p).dropLast = interm2 := congrArg Prod.fst h12
    have hn2 : name = name2 := congrArg Prod.snd h12
    subst hi
    subst hn2
    have hcs : sourceAt t.rootChildren ((splitPath p).dropLast) = cs2 :=
      descendNoCreate_sourceAt _ _ _ hdc0
    have hex : hasNode t p = true := hasNode_of_decomp t p _ name cs2 old hs hdc0 hgc
    rw [hval]
    refine ⟨?_, ?_⟩ <;>
      · rw [hspec.1, hcs]
        simp [setLeafStep, hgc, hne, hex, triggerEvent, he, getType_mkLeafNode]

/-- Witness for `setLeafValue_spec`: writing `Int 7` over an existing
string node at `"a"`. -/
theorem setLeafValue_spec_witness :
    hasNode (setLeafValue strDemoTree "a" (LeafVal.intV 7)).1 "a" = true ∧
    getNodeType (setLeafValue strDemoTree "a" (LeafVal.intV 7)).1 "a" = NodeType.INT ∧
    getLeafVal (setLeafValue strDemoTree "a" (LeafVal.intV 7)).1 "a" =
      some (LeafVal.intV 7) ∧
    (setLeafValue strDemoTree "a" (LeafVal.intV 7)).2.1 =
      [⟨EventType.UPDATE, "a", "", NodeType.INT⟩] ∧
    (setLeafValue strDemoTree "a" (LeafVal.intV 7)).2.2 =
      [ErrorReport.typeMismatch "a"] := by
  have h := setLeafValue_spec strDemoTree "a" (LeafVal.intV 7) (by decide) rfl
  have h4 := h.2.2.2 (BaseNode.stringNode "hello") rfl (by decide)
  exact ⟨h.1, h.2.1, h.2.2.1, h4.1, h4.2⟩

/-! ## Action-pipeline stage lemmas -/

theorem runListenersLoop_eq (tag : ActionHandlerType) (s : String) :
    ∀ (ls : List ProcHandler) (res : ActionResult) (tr : ActionTrace),
      runListenersLoop tag s ls res tr =
        ({ res with executedListeners := res.executedListeners + okCount ls,
                    errorMessage := lastErr s ls res.errorMessage },
         tr ++ ls.map (fun l => (tag, l.id))) := by
  intro ls
  induction ls with
  | nil => intro res tr; simp [runListenersLoop, okCount, lastErr]
  | cons l rest ih =>
    intro res tr
    cases hb : l.behavior with
    | ok =>
      simp only [runListenersLoop, hb, ih, okCount, lastErr]
      simp [Nat.add_assoc]
    | exc m =>
      simp only [runListenersLoop, hb, ih, okCount, lastErr]
      simp [Nat.add_assoc]

theorem runValidators_allTrue (vs : List ValHandler)
    (hv : ∀ v ∈ vs, v.behavior = VBehavior.ret true) :
    ∀ (res : ActionResult) (tr : ActionTrace),
      runValidators vs res tr =
        ({ res with passedValidators := res.passedValidators + vs.length },
         tr ++ vs.map (fun v => (ActionHandlerType.Validator, v.id)), false) := by
  induction vs with
  | nil => intro res tr; simp [runValidators]
  | cons v rest ih =>
    intro res tr
    have hvh : v.behavior = VBehavior.ret true := hv v (List.mem_cons_self v rest)
    have ihr := ih (fun u hu => hv u (List.mem_cons_of_mem v hu))
    simp only [runValidators, hvh, ihr]
    simp [Nat.add_assoc, Nat.add_comm 1 rest.length]

theorem runValidators_firstFalse (pre : List ValHandler) (v : ValHandler)
    (post : List ValHandler) (hpre : ∀ u ∈ pre, u.behavior = VBehavior.ret true)
    (hv : v.behavior = VBehavior.ret false) :
    ∀ (res : ActionResult) (tr : ActionTrace),
      runValidators (pre ++ v :: post) res tr =
        ({ res with passedValidators := res.passedValidators + pre.length,
                    validationPassed := false,
                    errorMessage := "Validation failed by: " ++ v.description },
         tr ++ (pre ++ [v]).map (fun u => (ActionHandlerType.Validator, u.id)), true) := by
  induction pre with
  | nil =>
    intro res tr
    simp [runValidators, hv]
  | cons u rest ih =>
    intro res tr
    have huh : u.behavior = VBehavior.ret true := hpre u (List.mem_cons_self u rest)
    have ihr := ih (fun w hw => hpre w (List.mem_cons_of_mem u hw))
    rw [List.cons_append]
    simp only [runValidators, huh]
    rw [ihr]
    simp [Nat.add_assoc, Nat.add_comm 1 rest.length]

theorem runSeq_allOk (ps : List ProcHandler)
    (hp : ∀ q ∈ ps, q.behavior = PBehavior.ok) :
    ∀ (res : ActionResult) (tr : ActionTrace),
      runSeqProcessors ps res tr =
        ({ res with executedProcessors := res.executedProcessors + ps.length },
         tr ++ ps.map (fun q => (ActionHandlerType.SequentialProcessor, q.id)), false) := by
  induction ps with
  | nil => intro res tr; simp [runSeqProcessors]
  | cons q rest ih =>
    intro res tr
    have hq : q.behavior = PBehavior.ok := hp q (List.mem_cons_self q rest)
    have ihr := ih (fun w hw => hp w (List.mem_cons_of_mem q hw))
    simp only [runSeqProcessors, hq, ihr]
    simp [Nat.add_assoc, Nat.add_comm 1 rest.length]

theorem runSeq_firstExc (pre : List ProcHandler) (q : ProcHandler)
    (post : List ProcHandler) (m : String)
    (hpre : ∀ u ∈ pre, u.behavior = PBehavior.ok)
    (hq : q.behavior = PBehavior.exc m) :
    ∀ (res : ActionResult) (tr : ActionTrace),
      runSeqProcessors (pre ++ q :: post) res tr =
        ({ res with executedProcessors := res.executedProcessors + pre.length,
                    errorMessage := "Sequential processor error: " ++ m,
                    success := false },
         tr ++ (pre ++ [q]).map (fun u => (ActionHandlerType.SequentialProcessor, u.id)),
         true) := by
  induction pre with
  | nil =>
    intro res tr
    simp [runSeqProcessors, hq]
  | cons u rest ih =>
    intro res tr
    have huh : u.behavior = PBehavior.ok := hpre u (List.mem_cons_self u rest)
    have ihr := ih (fun w hw => hpre w (List.mem_cons_of_mem u hw))
    rw [List.cons_append]
    simp only [runSeqProcessors, huh]
    rw [ihr]
    simp [Nat.add_assoc, Nat.add_comm 1 rest.length]

theorem stageIds_append (a b : ActionTrace) (tag : ActionHandlerType) :
    stageIds (a ++ b) tag = stageIds a tag ++ stageIds b tag := by
  simp [stageIds, List.filter_append]

theorem stageIds_map_ne (ls : List ProcHandler) (tag tag2 : ActionHandlerType)
    (h : tag ≠ tag2) :
    stageIds (ls.map (fun l => (tag, l.id))) tag2 = [] := by
  induction ls with
  | nil => rfl
  | cons l rest ih =>
    simp only [List.map_cons, stageIds, List.filter_cons] at ih ⊢
    have hc : (((tag, l.id) : ActionHandlerType × Nat).1 == tag2) = false := by
      simp [h]
    rw [hc]
    simpa using ih

theorem stageIds_nil (tag : ActionHandlerType) : stageIds [] tag = [] := rfl

/-- Claim C4 (confirmed): when a sequential processor throws, the
pipeline aborts — the remaining sequential processors, the final
processor and the completion listeners do not run — and when the final
processor throws, the completion listeners do not run; in both cases
`success = false` and the exception message is recorded in
`errorMessage`. -/
theorem execute_abort_on_throw (c : ActionProcessorContainer)
    (hv : ∀ v ∈ c.validators, v.behavior = VBehavior.ret true) :
    (∀ pre q post m, c.sequentialProcessors = pre ++ q :: post →
      (∀ u ∈ pre, u.behavior = PBehavior.ok) → q.behavior = PBehavior.exc m →
      (Execute c).1.success = false ∧
      (Execute c).1.errorMessage = "Sequential processor error: " ++ m ∧
      (Execute c).2 =
        c.triggerListeners.map (fun l => (ActionHandlerType.TriggerListener, l.id)) ++
        (c.validators.map (fun u => (ActionHandlerType.Validator, u.id)) ++
         (c.validationListeners.map (fun l => (ActionHandlerType.ValidationListener, l.id)) ++
          (pre ++ [q]).map (fun u => (ActionHandlerType.SequentialProcessor, u.id)))) ∧
      stageIds (Execute c).2 ActionHandlerType.FinalProcessor = [] ∧
      stageIds (Execute c).2 ActionHandlerType.CompletionListener = []) ∧
    (∀ f m, (∀ q ∈ c.sequentialProcessors, q.behavior = PBehavior.ok) →
      c.finalProcessor = some f → f.behavior = PBehavior.exc m →
      (Execute c).1.success = false ∧
      (Execute c).1.errorMessage = "Final processor error: " ++ m ∧
      stageIds (Execute c).2 ActionHandlerType.CompletionListener = []) := by
  constructor
  · intro pre q post m hseq hpre hq
    simp [Execute, runListenerStage, runListenersLoop_eq, ActionResult.init, hseq,
      runValidators_allTrue c.validators hv, runSeq_firstExc pre q post m hpre hq,
      stageIds_append, stageIds_map_ne, stageIds]
  · intro f m hseq hf hfb
    simp [Execute, runListenerStage, runListenersLoop_eq, ActionResult.init, hf, hfb,
      runValidators_allTrue c.validators hv, runSeq_allOk c.sequentialProcessors hseq,
      runFinal, stageIds_append, stageIds_map_ne, stageIds]

/-- Claim C5 (confirmed): when the first validator returning `false` is
reached, the pipeline aborts with `validationPassed = false`,
`executedProcessors = 0`, `success = false` and the validator's
description recorded in `errorMessage`; no validation listener,
sequential processor, final processor or completion listener of the
container runs (only the trigger listeners and the validators up to and
including the rejecting one are invoked). -/
theorem execute_validator_false (c : ActionProcessorContainer) :
    ∀ pre v post, c.validators = pre ++ v :: post →
      (∀ u ∈ pre, u.behavior = VBehavior.ret true) →
      v.behavior = VBehavior.ret false →
      (Execute c).1.validationPassed = false ∧
      (Execute c).1.success = false ∧
      (Execute c).1.executedProcessors = 0 ∧
      (Execute c).1.errorMessage = "Validation failed by: " ++ v.description ∧
      (Execute c).2 =
        c.triggerListeners.map (fun l => (ActionHandlerType.TriggerListener, l.id)) ++
        (pre ++ [v]).map (fun u => (ActionHandlerType.Validator, u.id)) ∧
      stageIds (Execute c).2 ActionHandlerType.ValidationListener = [] ∧
      stageIds (Execute c).2 ActionHandlerType.SequentialProcessor = [] ∧
      stageIds (Execute c).2 ActionHandlerType.FinalProcessor = [] ∧
      stageIds (Execute c).2 ActionHandlerType.CompletionListener = [] := by
  intro pre v post hval hpre hv
  simp [Execute, runListenerStage, runListenersLoop_eq, ActionResult.init, hval,
    runValidators_firstFalse pre v post hpre hv,
    stageIds_append, stageIds_map_ne, stageIds]

/-- Witness for `execute_abort_on_throw` on a concrete container whose
second sequential processor throws. -/
theorem execute_abort_on_throw_witness :
    (Execute seqThrowContainer).1.success = false ∧
    (Execute seqThrowContainer).1.errorMessage = "Sequential processor error: bad" ∧
    stageIds (Execute seqThrowContainer).2 ActionHandlerType.FinalProcessor = [] ∧
    stageIds (Execute seqThrowContainer).2 ActionHandlerType.CompletionListener = [] := by
  have h := (execute_abort_on_throw seqThrowContainer (by decide)).1
    [⟨2, "p1", 0, .ok⟩] ⟨3, "p2", 0, .exc "bad"⟩ [⟨4, "p3", 0, .ok⟩] "bad"
    rfl (by decide) rfl
  exact ⟨h.1, h.2.1, h.2.2.2.1, h.2.2.2.2⟩

/-- Witness for `execute_validator_false` on a concrete container whose
second validator rejects. -/
theorem execute_validator_false_witness :
    (Execute valFalseContainer).1.validationPassed = false ∧
    (Execute valFalseContainer).1.success = false ∧
    (Execute valFalseContainer).1.executedProcessors = 0 ∧
    (Execute valFalseContainer).1.errorMessage = "Validation failed by: v2" ∧
    stageIds (Execute valFalseContainer).2 ActionHandlerType.ValidationListener = [] ∧
    stageIds (Execute valFalseContainer).2 ActionHandlerType.SequentialProcessor = [] ∧
    stageIds (Execute valFalseContainer).2 ActionHandlerType.FinalProcessor = [] ∧
    stageIds (Execute valFalseContainer).2 ActionHandlerType.CompletionListener = [] := by
  have h := execute_validator_false valFalseContainer
    [⟨2, "v1", 0, .ret true⟩] ⟨3, "v2", 0, .ret false⟩ [⟨4, "v3", 0, .ret true⟩]
    rfl (by decide) rfl
  exact ⟨h.1, h.2.1, h.2.2.1, h.2.2.2.1, h.2.2.2.2.2.1, h.2.2.2.2.2.2.1,
    h.2.2.2.2.2.2.2.1, h.2.2.2.2.2.2.2.2⟩

/-! ## Listener-trie lemmas -/

theorem tryAdd_nil (cond : ListenerInfo → Bool) (acc : List ListenerInfo) :
    tryAddListeners cond [] acc = acc := rfl

theorem tryAdd_cons (cond : ListenerInfo → Bool) (l : ListenerInfo)
    (ls acc : List ListenerInfo) :
    tryAddListeners cond (l :: ls) acc =
      tryAddListeners cond ls
        (if cond l && acc.all (fun r => r.id != l.id) then acc ++ [l] else acc) := rfl

theorem tryAdd_mono_ids (cond : ListenerInfo → Bool) (ls : List ListenerInfo) :
    ∀ (acc : List ListenerInfo) (x : Nat), x ∈ acc.map (fun l => l.id) →
      x ∈ (tryAddListeners cond ls acc).map (fun l => l.id) := by
  induction ls with
  | nil => intro acc x hx; simpa [tryAdd_nil] using hx
  | cons l rest ih =>
    intro acc x hx
    rw [tryAdd_cons]
    apply ih
    by_cases hc : (cond l && acc.all (fun r => r.id != l.id)) = true
    · rw [if_pos hc]
      simp only [List.map_append, List.mem_append]
      exact Or.inl hx
    · rw [if_neg hc]
      exact hx

theorem tryAdd_mem_ids (cond : ListenerInfo → Bool) (ls : List ListenerInfo) :
    ∀ (acc : List ListenerInfo) (l : ListenerInfo), l ∈ ls → cond l = true →
      l.id ∈ (tryAddListeners cond ls acc).map (fun r => r.id) := by
  induction ls with
  | nil => intro acc l hl; exact absurd hl (List.not_mem_nil l)
  | cons u rest ih =>
    intro acc l hl hc
    rw [tryAdd_cons]
    rcases List.mem_cons.mp hl with rfl | hl2
    · by_cases hg : (cond l && acc.all (fun r => r.id != l.id)) = true
      · rw [if_pos hg]
        apply tryAdd_mono_ids
        simp
      · rw [if_neg hg]
        apply tryAdd_mono_ids
        have hall : acc.all (fun r => r.id != l.id) = false := by
          cases hall : acc.all (fun r => r.id != l.id) with
          | false => rfl
          | true => exact absurd (by simp [hc, hall]) hg
        obtain ⟨r, hr, hrid⟩ := List.all_eq_false.mp hall
        simp [bne] at hrid
        exact List.mem_map.mpr ⟨r, hr, hrid⟩
    · exact ih _ l hl2 hc

theorem tryAdd_ids_nodup (cond : ListenerInfo → Bool) (ls : List ListenerInfo) :
    ∀ (acc : List ListenerInfo), (acc.map (fun l => l.id)).Nodup →
      ((tryAddListeners cond ls acc).map (fun l => l.id)).Nodup := by
  induction ls with
  | nil => intro acc h; simpa [tryAdd_nil] using h
  | cons u rest ih =>
    intro acc h
    rw [tryAdd_cons]
    apply ih
    by_cases hg : (cond u && acc.all (fun r => r.id != u.id)) = true
    · rw [if_pos hg]
      have hall : ∀ r ∈ acc, (r.id != u.id) = true :=
        List.all_eq_true.mp (Bool.and_elim_right hg)
      have hnot : u.id ∉ acc.map (fun l => l.id) := by
        intro hmem
        obtain ⟨r, hr, hrid⟩ := List.mem_map.mp hmem
        have hthis := hall r hr
        rw [hrid] at hthis
        simp at hthis
      simp only [List.map_append, List.map_cons, List.map_nil]
      exact List.Nodup.append h (List.nodup_singleton u.id)
        (by simpa [List.disjoint_singleton] using hnot)
    · rw [if_neg hg]
      exact h

theorem ancestorScan_mono_ids (qpath : String) (k : EventType) :
    ∀ (segs : List String) (n : EventTrieNode) (acc : List ListenerInfo) (x : Nat),
      x ∈ acc.map (fun l => l.id) →
      x ∈ (ancestorScan n segs qpath k acc).map (fun l => l.id) := by
  intro segs
  induction segs with
  | nil => intro n acc x hx; exact hx
  | cons seg rest ih =>
    intro n acc x hx
    simp only [ancestorScan]
    cases hc : getTrieChild n seg with
    | none => exact hx
    | some c => exact ih c _ x (tryAdd_mono_ids _ _ _ x hx)

theorem ancestorScan_ids_nodup (qpath : String) (k : EventType) :
    ∀ (segs : List String) (n : EventTrieNode) (acc : List ListenerInfo),
      (acc.map (fun l => l.id)).Nodup →
      ((ancestorScan n segs qpath k acc).map (fun l => l.id)).Nodup := by
  intro segs
  induction segs with
  | nil => intro n acc h; exact h
  | cons seg rest ih =>
    intro n acc h
    simp only [ancestorScan]
    cases hc : getTrieChild n seg with
    | none => exact h
    | some c => exact ih c _ (tryAdd_ids_nodup _ _ _ h)

theorem ancestorScan_mem (qpath : String) (k : EventType) :
    ∀ (ps rest : List String) (n nd : EventTrieNode) (L : ListenerInfo)
      (acc : List ListenerInfo),
      ps ≠ [] → walkTrie n ps = some nd → L ∈ nd.listeners →
      ancestorCond qpath k L = true →
      L.id ∈ (ancestorScan n (ps ++ rest) qpath k acc).map (fun l => l.id) := by
  intro ps
  induction ps with
  | nil => intro rest n nd L acc hne; exact absurd rfl hne
  | cons seg ps2 ih =>
    intro rest n nd L acc _ hwalk hmem hcond
    obtain ⟨c, hc, hwalk2⟩ :
        ∃ c, getTrieChild n seg = some c ∧ walkTrie c ps2 = some nd := by
      cases hc : getTrieChild n seg with
      | none => simp [walkTrie, hc] at hwalk
      | some c => exact ⟨c, rfl, by simpa [walkTrie, hc] using hwalk⟩
    simp only [List.cons_append, ancestorScan, hc]
    cases ps2 with
    | nil =>
      have hcnd : c = nd := by simpa [walkTrie] using hwalk2
      subst hcnd
      exact ancestorScan_mono_ids qpath k _ c _ L.id
        (tryAdd_mem_ids _ _ _ L hmem hcond)
    | cons a b =>
      exact ih rest c nd L _ (by simp) hwalk2 hmem hcond

theorem insertListener_self :
    ∀ (segs : List String) (t : EventTrieNode) (L : ListenerInfo),
      trieMem (insertListener t segs L) segs L := by
  intro segs
  induction segs with
  | nil =>
    intro t L
    obtain ⟨cs, ls⟩ := t
    exact ⟨EventTrieNode.mk cs (ls ++ [L]), rfl, by simp [EventTrieNode.listeners]⟩
  | cons s rest ih =>
    intro t L
    obtain ⟨cs, ls⟩ := t
    have hget : getTrieChild
        (EventTrieNode.mk (assocSet cs s (insertListener
          (match assocGet cs s with
           | some c => c
           | none => EventTrieNode.mk [] []) rest L)) ls) s =
        some (insertListener
          (match assocGet cs s with
           | some c => c
           | none => EventTrieNode.mk [] []) rest L) := by
      simp [getTrieChild, EventTrieNode.children, assocGet_set_self]
    obtain ⟨n, hwalk, hmem⟩ := ih
      (match assocGet cs s with
       | some c => c
       | none => EventTrieNode.mk [] []) L
    exact ⟨n, by simp only [insertListener, walkTrie, hget, hwalk], hmem⟩

theorem insertListener_preserve :
    ∀ (segs segs2 : List String) (t : EventTrieNode) (L L2 : ListenerInfo),
      trieMem t segs L → trieMem (insertListener t segs2 L2) segs L := by
  intro segs
  induction segs with
  | nil =>
    intro segs2 t L L2 hm
    obtain ⟨n, hwalk, hmem⟩ := hm
    obtain ⟨cs, ls⟩ := t
    have hn : n = EventTrieNode.mk cs ls := by simpa [walkTrie] using hwalk.symm
    subst hn
    cases segs2 with
    | nil =>
      refine ⟨EventTrieNode.mk cs (ls ++ [L2]), rfl, ?_⟩
      simp only [EventTrieNode.listeners] at hmem ⊢
      exact List.mem_append_left _ hmem
    | cons s2 r2 =>
      refine ⟨_, rfl, ?_⟩
      simpa [insertListener, EventTrieNode.listeners] using hmem
  | cons s rest ih =>
    intro segs2 t L L2 hm
    obtain ⟨n, hwalk, hmem⟩ := hm
    obtain ⟨cs, ls⟩ := t
    obtain ⟨c, hc, hwalk2⟩ :
        ∃ c, assocGet cs s = some c ∧ walkTrie c rest = some n := by
      cases hc : assocGet cs s with
      | none => simp [walkTrie, getTrieChild, EventTrieNode.children, hc] at hwalk
      | some c =>
        exact ⟨c, rfl, by
          simpa [walkTrie, getTrieChild, EventTrieNode.children, hc] using hwalk⟩
    cases segs2 with
    | nil =>
      refine ⟨n, ?_, hmem⟩
      simp [insertListener, walkTrie, getTrieChild, EventTrieNode.children, hc, hwalk2]
    | cons s2 r2 =>
      by_cases hss : s2 = s
      · subst hss
        obtain ⟨n2, hwalk3, hmem3⟩ := ih r2 c L L2 ⟨n, hwalk2, hmem⟩
        refine ⟨n2, ?_, hmem3⟩
        simp [insertListener, walkTrie, getTrieChild, EventTrieNode.children,
          assocGet_set_self, hc, hwalk3]
      · refine ⟨n, ?_, hmem⟩
        simp only [insertListener, walkTrie, getTrieChild, EventTrieNode.children]
        rw [assocGet_set_ne _ _ _ _ hss]
        simp [hc, hwalk2]

theorem registerAll_preserve :
    ∀ (regs : List Registration) (m : EventManager) (segs : List String)
      (L : ListenerInfo),
      trieMem m.root segs L → trieMem (registerAll m regs).root segs L := by
  intro regs
  induction regs with
  | nil => intro m segs L h; exact h
  | cons r rest ih =>
    intro m segs L h
    exact ih _ segs L (insertListener_preserve segs _ m.root L _ h)

theorem registerAll_mem :
    ∀ (regs : List Registration) (i : Nat) (hi : i < regs.length) (m : EventManager),
      trieMem (registerAll m regs).root
        (splitPath (regs.get ⟨i, hi⟩).path)
        ⟨m.nextId + i, (regs.get ⟨i, hi⟩).path, (regs.get ⟨i, hi⟩).granularity,
          (regs.get ⟨i, hi⟩).eventType⟩ := by
  intro regs
  induction regs with
  | nil => intro i hi; exact absurd hi (by simp)
  | cons r rest ih =>
    intro i hi m
    cases i with
    | zero =>
      simp only [List.get, registerAll, Nat.add_zero]
      exact registerAll_preserve rest _ _ _
        (insertListener_self (splitPath r.path) m.root
          ⟨m.nextId, r.path, r.granularity, r.eventType⟩)
    | succ j =>
      have hj : j < rest.length := by simpa using hi
      have := ih j hj (addListener m r.path r.granularity r.eventType).1
      simp only [addListener] at this
      simp only [List.get, registerAll]
      have harith : m.nextId + 1 + j = m.nextId + (j + 1) := by omega
      rw [← harith]
      exact this

theorem phase2_nodup (root : EventTrieNode) (path : String) (k : EventType)
    (acc : List ListenerInfo) (h : (acc.map (fun l => l.id)).Nodup) :
    (((match walkTrie root (splitPath (joinPath (splitPath path).dropLast)) with
      | some parentNode =>
        tryAddListeners
          (fun l => l.eventType == k && l.path == joinPath (splitPath path).dropLast)
          (parentNode.listeners.filter
            (fun l => l.granularity == ListenGranularity.DIRECT_CHILD)) acc
      | none => acc : List ListenerInfo)).map (fun l => l.id)).Nodup := by
  split
  · exact tryAdd_ids_nodup _ _ acc h
  · exact h

theorem findListeners_ids_nodup (root : EventTrieNode) (path : String) (k : EventType) :
    ((findListeners root path k).map (fun l => l.id)).Nodup := by
  unfold findListeners
  apply ancestorScan_ids_nodup
  split
  · split
    · apply tryAdd_ids_nodup
      simp
    · simp
  · split
    · exact phase2_nodup root path k _ (tryAdd_ids_nodup _ _ _ (by simp))
    · exact phase2_nodup root path k _ (by simp)

theorem joinPath_prefix :
    ∀ (ps rest : List String), ps ≠ [] →
      strIsPrefix (joinPath ps) (joinPath (ps ++ rest)) = true := by
  intro ps
  induction ps with
  | nil => intro rest h; exact absurd rfl h
  | cons s ps2 ih =>
    intro rest _
    cases ps2 with
    | nil =>
      cases rest with
      | nil =>
        simp only [List.cons_append, List.nil_append, List.append_nil, joinPath]
        simp only [strIsPrefix]
        rw [List.isPrefixOf_iff_prefix]
      | cons r rs =>
        simp only [List.cons_append, List.nil_append, joinPath]
        simp only [strIsPrefix, String.data_append]
        rw [List.isPrefixOf_iff_prefix, List.append_assoc]
        exact List.prefix_append _ _
    | cons p2 ps3 =>
      have h2 := ih rest (by simp)
      simp only [List.cons_append, joinPath] at h2 ⊢
      simp only [strIsPrefix, String.data_append] at h2 ⊢
      rw [List.isPrefixOf_iff_prefix] at h2 ⊢
      exact (List.prefix_append_right_inj _).mpr h2

theorem findListeners_mem (root : EventTrieNode) (q : String) (k : EventType)
    (ps : List String) (nd : EventTrieNode) (L : ListenerInfo)
    (hne : ps ≠ []) (hwalk : walkTrie root ps = some nd) (hmem : L ∈ nd.listeners)
    (hcond : ancestorCond q k L = true) (hpre : ps <+: splitPath q) :
    L.id ∈ (findListeners root q k).map (fun l => l.id) := by
  obtain ⟨rest, hrest⟩ := hpre
  simp only [findListeners]
  rw [← hrest]
  exact ancestorScan_mem q k ps rest root nd L _ hne hwalk hmem hcond

/-- C3 counterexample: the claim as stated fails on registrations whose
path is not in canonical form.  A Subtree (`ALL_CHILDREN`) listener
registered at the root path `""` never fires for a mutation at its
descendant `"a"` (phase 3 of `findListeners` only visits proper trie
children), and one registered at `"/x"` never fires for a mutation at
its descendant `"x/y"` (the raw string-prefix test `"/x"` vs `"x/y"`
fails even though the normalized segment lists are in the subtree
relation). -/
theorem findListeners_subtree_counterexample :
    findListeners rootSubtreeManager.root "a" EventType.ADD = [] ∧
    splitPath "" <+: splitPath "a" ∧
    findListeners slashSubtreeManager.root "x/y" EventType.ADD = [] ∧
    splitPath "/x" <+: splitPath "x/y" := by
  refine ⟨rfl, by decide, rfl, by decide⟩

/-- C3 (amended): (1) in every dispatch the delivered set of
`findListeners` is duplicate-free, and (2) every Subtree
(`ALL_CHILDREN`) listener whose registered path is non-empty and
canonical (fixed by normalization) is delivered exactly once for a
mutation of its event kind at any canonical descendant path — the
`i`-th registration in a batch registered on a fresh manager carries id
`1 + i`, and that id appears exactly once in the delivered set. -/
theorem findListeners_subtree_amended :
    (∀ (root : EventTrieNode) (path : String) (k : EventType),
      ((findListeners root path k).map (fun l => l.id)).Nodup) ∧
    (∀ (regs : List Registration) (i : Nat) (hi : i < regs.length)
       (q : String) (k : EventType),
      (regs.get ⟨i, hi⟩).granularity = ListenGranularity.ALL_CHILDREN →
      (regs.get ⟨i, hi⟩).eventType = k →
      (regs.get ⟨i, hi⟩).path ≠ "" →
      (regs.get ⟨i, hi⟩).path = joinPath (splitPath (regs.get ⟨i, hi⟩).path) →
      q = joinPath (splitPath q) →
      splitPath (regs.get ⟨i, hi⟩).path <+: splitPath q →
      ((findListeners (registerAll EventManager.empty regs).root q k).map
        (fun l => l.id)).count (1 + i) = 1) := by
  constructor
  · exact findListeners_ids_nodup
  · intro regs i hi q k hg hk hne hpc hqc hpre
    have hpsne : splitPath (regs.get ⟨i, hi⟩).path ≠ [] := by
      intro h0
      rw [h0] at hpc
      exact hne (by simpa [joinPath] using hpc)
    obtain ⟨nd, hwalk, hmem⟩ := registerAll_mem regs i hi EventManager.empty
    have hpref : strIsPrefix (regs.get ⟨i, hi⟩).path q = true := by
      obtain ⟨rest, hrest⟩ := hpre
      rw [hpc, hqc, ← hrest]
      exact joinPath_prefix _ rest hpsne
    have hcond : ancestorCond q k
        ⟨EventManager.empty.nextId + i, (regs.get ⟨i, hi⟩).path,
         (regs.get ⟨i, hi⟩).granularity, (regs.get ⟨i, hi⟩).eventType⟩ = true := by
      simp only [ancestorCond, Bool.and_eq_true, beq_iff_eq]
      exact ⟨⟨hk, hg⟩, hpref⟩
    have hmem2 := findListeners_mem (registerAll EventManager.empty regs).root q k
      (splitPath (regs.get ⟨i, hi⟩).path) nd
      ⟨EventManager.empty.nextId + i, (regs.get ⟨i, hi⟩).path,
       (regs.get ⟨i, hi⟩).granularity, (regs.get ⟨i, hi⟩).eventType⟩
      hpsne hwalk hmem hcond hpre
    have hnd := findListeners_ids_nodup (registerAll EventManager.empty regs).root q k
    exact Nat.le_antisymm (List.nodup_iff_count_le_one.mp hnd _)
      (List.count_pos_iff.mpr hmem2)

/-- Witness for the amended C3 theorem: a Subtree listener registered
at `"x"` on a fresh manager (so with id `1`) is delivered exactly once
for an `ADD` at the descendant path `"x/y"`. -/
theorem findListeners_subtree_amended_witness :
    ((findListeners (registerAll EventManager.empty
        [⟨"x", ListenGranularity.ALL_CHILDREN, EventType.ADD⟩]).root
      "x/y" EventType.ADD).map (fun l => l.id)).count 1 = 1 := by
  have h := findListeners_subtree_amended
  have h2 := h.2 [⟨"x", ListenGranularity.ALL_CHILDREN, EventType.ADD⟩] 0
    (by decide) "x/y" EventType.ADD rfl rfl (by decide) rfl rfl (by decide)
  simpa using h2

/-- C6: the unicast slot holds at most one handler per key.  After two
unicast subscriptions on the same key (tokens `nextToken` and
`nextToken + 1`), the slot holds exactly the second handler, a unicast
publish on the key is delivered only to the second token with
`totalSubscribers = 1` and `success = true`, the key's once-record
refers (at most) to the second token — the first subscription's
once-record is gone even when it subscribed with `once = true` — and
the first token's entry in the token-to-key index has been erased by
the eviction. -/
theorem unicast_single_slot {K : Type} [DecidableEq K] (bus : EventBusState K) (k : K)
    (a1 a2 d1 d2 : String) (c1 c2 : Nat) (o1 o2 : Bool)
    (hU : assocGet bus.unicastEventHandlers k = none)
    (hT : (bus.tokenToEventNameMap.map Prod.fst).Nodup)
    (hO : (bus.unicastOnceEventHandlers.map Prod.fst).Nodup) :
    assocGet (subscribeTwiceUnicast bus k a1 c1 d1 o1 a2 c2 d2 o2).unicastEventHandlers k =
      some ⟨bus.nextToken + 1, a2, c2, d2⟩ ∧
    (publishImpl (subscribeTwiceUnicast bus k a1 c1 d1 o1 a2 c2 d2 o2) k
        SubscriptionMode.Unicast a2 c2).2.2 = [bus.nextToken + 1] ∧
    (publishImpl (subscribeTwiceUnicast bus k a1 c1 d1 o1 a2 c2 d2 o2) k
        SubscriptionMode.Unicast a2 c2).2.1.totalSubscribers = 1 ∧
    (publishImpl (subscribeTwiceUnicast bus k a1 c1 d1 o1 a2 c2 d2 o2) k
        SubscriptionMode.Unicast a2 c2).2.1.success = true ∧
    assocGet (subscribeTwiceUnicast bus k a1 c1 d1 o1 a2 c2 d2 o2).unicastOnceEventHandlers k =
      (if o2 then some (bus.nextToken + 1) else none) ∧
    assocGet (subscribeTwiceUnicast bus k a1 c1 d1 o1 a2 c2 d2 o2).tokenToEventNameMap
      bus.nextToken = none := by
  have hbus2U : (subscribeTwiceUnicast bus k a1 c1 d1 o1 a2 c2 d2 o2).unicastEventHandlers =
      assocSet (assocSet bus.unicastEventHandlers k ⟨bus.nextToken, a1, c1, d1⟩) k
        ⟨bus.nextToken + 1, a2, c2, d2⟩ := by
    cases o1 <;> cases o2 <;>
      simp [subscribeTwiceUnicast, subscribeDetailed, hU, assocGet_set_self]
  have hbus2O : (subscribeTwiceUnicast bus k a1 c1 d1 o1 a2 c2 d2 o2).unicastOnceEventHandlers =
      (if o2 then
        assocSet (assocErase (if o1 then
            assocSet bus.unicastOnceEventHandlers k bus.nextToken
          else bus.unicastOnceEventHandlers) k) k (bus.nextToken + 1)
      else
        assocErase (if o1 then
            assocSet bus.unicastOnceEventHandlers k bus.nextToken
          else bus.unicastOnceEventHandlers) k) := by
    cases o1 <;> cases o2 <;>
      simp [subscribeTwiceUnicast, subscribeDetailed, hU, assocGet_set_self]
  have hbus2T : (subscribeTwiceUnicast bus k a1 c1 d1 o1 a2 c2 d2 o2).tokenToEventNameMap =
      assocSet (assocErase (assocSet bus.tokenToEventNameMap bus.nextToken k) bus.nextToken)
        (bus.nextToken + 1) k := by
    cases o1 <;> cases o2 <;>
      simp [subscribeTwiceUnicast, subscribeDetailed, hU, assocGet_set_self]
  have hOnceNodup : (((if o1 then assocSet bus.unicastOnceEventHandlers k bus.nextToken
      else bus.unicastOnceEventHandlers) : List (K × Nat)).map Prod.fst).Nodup := by
    cases o1
    · exact hO
    · exact keys_set_nodup _ _ _ hO
  have hUget : assocGet (subscribeTwiceUnicast bus k a1 c1 d1 o1 a2 c2 d2 o2).unicastEventHandlers
      k = some ⟨bus.nextToken + 1, a2, c2, d2⟩ := by
    rw [hbus2U]
    exact assocGet_set_self _ _ _
  have hOget : assocGet
      (subscribeTwiceUnicast bus k a1 c1 d1 o1 a2 c2 d2 o2).unicastOnceEventHandlers k =
      (if o2 then some (bus.nextToken + 1) else none) := by
    rw [hbus2O]
    cases o2
    · simpa using assocGet_erase_self _ _ hOnceNodup
    · simpa using assocGet_set_self _ _ (bus.nextToken + 1)
  have hTget : assocGet (subscribeTwiceUnicast bus k a1 c1 d1 o1 a2 c2 d2 o2).tokenToEventNameMap
      bus.nextToken = none := by
    rw [hbus2T]
    rw [assocGet_set_ne _ _ _ _ (Nat.succ_ne_self bus.nextToken)]
    exact assocGet_erase_self _ _ (keys_set_nodup _ _ _ hT)
  have hpub :
      (publishImpl (subscribeTwiceUnicast bus k a1 c1 d1 o1 a2 c2 d2 o2) k
          SubscriptionMode.Unicast a2 c2).2.2 = [bus.nextToken + 1] ∧
      (publishImpl (subscribeTwiceUnicast bus k a1 c1 d1 o1 a2 c2 d2 o2) k
          SubscriptionMode.Unicast a2 c2).2.1.totalSubscribers = 1 ∧
      (publishImpl (subscribeTwiceUnicast bus k a1 c1 d1 o1 a2 c2 d2 o2) k
          SubscriptionMode.Unicast a2 c2).2.1.success = true := by
    cases o2 <;>
      simp_all [publishImpl, PublishResult.start, PublishResult.addSuccess]
  exact ⟨hUget, hpub.1, hpub.2.1, hpub.2.2, hOget, hTget⟩

/-- Witness for the unicast eviction theorem on a fresh bus over `Nat`
keys: `f1` subscribes with `once = true`, `f2` with `once = false`. -/
theorem unicast_single_slot_witness :
    assocGet (subscribeTwiceUnicast (EventBusState.empty Nat) 0
        "int" 1 "f1" true "str" 2 "f2" false).unicastEventHandlers 0 =
      some ⟨2, "str", 2, "f2"⟩ ∧
    (publishImpl (subscribeTwiceUnicast (EventBusState.empty Nat) 0
        "int" 1 "f1" true "str" 2 "f2" false) 0
      SubscriptionMode.Unicast "str" 2).2.2 = [2] ∧
    (publishImpl (subscribeTwiceUnicast (EventBusState.empty Nat) 0
        "int" 1 "f1" true "str" 2 "f2" false) 0
      SubscriptionMode.Unicast "str" 2).2.1.totalSubscribers = 1 ∧
    (publishImpl (subscribeTwiceUnicast (EventBusState.empty Nat) 0
        "int" 1 "f1" true "str" 2 "f2" false) 0
      SubscriptionMode.Unicast "str" 2).2.1.success = true ∧
    assocGet (subscribeTwiceUnicast (EventBusState.empty Nat) 0
        "int" 1 "f1" true "str" 2 "f2" false).unicastOnceEventHandlers 0 = none ∧
    assocGet (subscribeTwiceUnicast (EventBusState.empty Nat) 0
        "int" 1 "f1" true "str" 2 "f2" false).tokenToEventNameMap 1 = none := by
  have h := unicast_single_slot (EventBusState.empty Nat) 0 "int" "str" "f1" "f2" 1 2
    true false rfl (by simp [EventBusState.empty]) (by simp [EventBusState.empty])
  simpa [EventBusState.empty] using h

/-- C7: once-subscriptions are removed exactly after their first
successful delivery.  With a `once = true` multicast subscription
(token `nextToken`) followed by a plain one (token `nextToken + 1`) on
the same key: a publish whose argument-type string does not match
delivers to nobody and leaves the bus completely unchanged (in
particular the once handler is not removed); a matching publish
delivers to both tokens, in subscription order, within the same
dispatch — the removal is applied only after the loop — and afterwards
the key's subscriber count has dropped from 2 to 1 and the key's
once-record list is gone. -/
theorem multicast_once_removal {K : Type} [DecidableEq K] (bus : EventBusState K) (k : K)
    (ty ty2 : String) (c : Nat) (d1 d2 : String)
    (hm : assocGet bus.multicastEventHandlers k = none)
    (ho : assocGet bus.multicastOnceEventHandlers k = none)
    (hu : assocGet bus.unicastEventHandlers k = none)
    (huo : assocGet bus.unicastOnceEventHandlers k = none)
    (hne : ty2 ≠ ty) :
    (publishImpl (subscribeOnceThenPlain bus k ty c d1 d2) k
        SubscriptionMode.Multicast ty2 c).1 = subscribeOnceThenPlain bus k ty c d1 d2 ∧
    (publishImpl (subscribeOnceThenPlain bus k ty c d1 d2) k
        SubscriptionMode.Multicast ty2 c).2.2 = [] ∧
    getSubscriberCount (subscribeOnceThenPlain bus k ty c d1 d2) k = 2 ∧
    (publishImpl (subscribeOnceThenPlain bus k ty c d1 d2) k
        SubscriptionMode.Multicast ty c).2.2 = [bus.nextToken, bus.nextToken + 1] ∧
    getSubscriberCount (publishImpl (subscribeOnceThenPlain bus k ty c d1 d2) k
        SubscriptionMode.Multicast ty c).1 k = 1 ∧
    assocGet (publishImpl (subscribeOnceThenPlain bus k ty c d1 d2) k
        SubscriptionMode.Multicast ty c).1.multicastOnceEventHandlers k = none := by
  have hmc : (subscribeOnceThenPlain bus k ty c d1 d2).multicastEventHandlers =
      assocSet (assocSet bus.multicastEventHandlers k [⟨bus.nextToken, ty, c, d1⟩]) k
        [⟨bus.nextToken, ty, c, d1⟩, ⟨bus.nextToken + 1, ty, c, d2⟩] := by
    simp [subscribeOnceThenPlain, subscribeDetailed, hm, assocGet_set_self]
  have hmo : (subscribeOnceThenPlain bus k ty c d1 d2).multicastOnceEventHandlers =
      assocSet bus.multicastOnceEventHandlers k [bus.nextToken] := by
    simp [subscribeOnceThenPlain, subscribeDetailed, ho]
  have huh : (subscribeOnceThenPlain bus k ty c d1 d2).unicastEventHandlers =
      bus.unicastEventHandlers := by
    simp [subscribeOnceThenPlain, subscribeDetailed]
  have huo2 : (subscribeOnceThenPlain bus k ty c d1 d2).unicastOnceEventHandlers =
      bus.unicastOnceEventHandlers := by
    simp [subscribeOnceThenPlain, subscribeDetailed]
  have htm : (subscribeOnceThenPlain bus k ty c d1 d2).tokenToEventNameMap =
      assocSet (assocSet bus.tokenToEventNameMap bus.nextToken k) (bus.nextToken + 1) k := by
    simp [subscribeOnceThenPlain, subscribeDetailed]
  have hmcget : assocGet (subscribeOnceThenPlain bus k ty c d1 d2).multicastEventHandlers k =
      some [⟨bus.nextToken, ty, c, d1⟩, ⟨bus.nextToken + 1, ty, c, d2⟩] := by
    rw [hmc]
    exact assocGet_set_self _ _ _
  have hmoget : assocGet
      (subscribeOnceThenPlain bus k ty c d1 d2).multicastOnceEventHandlers k =
      some [bus.nextToken] := by
    rw [hmo]
    exact assocGet_set_self _ _ _
  have huget : assocGet (subscribeOnceThenPlain bus k ty c d1 d2).unicastEventHandlers k =
      none := by
    rw [huh]
    exact hu
  have huoget : assocGet (subscribeOnceThenPlain bus k ty c d1 d2).unicastOnceEventHandlers k =
      none := by
    rw [huo2]
    exact huo
  have htmget : assocGet (subscribeOnceThenPlain bus k ty c d1 d2).tokenToEventNameMap
      bus.nextToken = some k := by
    rw [htm]
    rw [assocGet_set_ne _ _ _ _ (Nat.succ_ne_self bus.nextToken)]
    exact assocGet_set_self _ _ _
  have hbne : (ty != ty2) = true := bne_iff_ne.mpr (Ne.symm hne)
  have hA : (publishImpl (subscribeOnceThenPlain bus k ty c d1 d2) k
        SubscriptionMode.Multicast ty2 c).1 = subscribeOnceThenPlain bus k ty c d1 d2 ∧
      (publishImpl (subscribeOnceThenPlain bus k ty c d1 d2) k
        SubscriptionMode.Multicast ty2 c).2.2 = [] := by
    refine ⟨?_, ?_⟩ <;>
      simp [publishImpl, hmcget, hmoget, multicastStep, hbne]
  have hcount2 : getSubscriberCount (subscribeOnceThenPlain bus k ty c d1 d2) k = 2 := by
    simp [getSubscriberCount, hmcget]
  have hB : (publishImpl (subscribeOnceThenPlain bus k ty c d1 d2) k
        SubscriptionMode.Multicast ty c).1 =
        (unsubscribe (subscribeOnceThenPlain bus k ty c d1 d2) bus.nextToken).1 ∧
      (publishImpl (subscribeOnceThenPlain bus k ty c d1 d2) k
        SubscriptionMode.Multicast ty c).2.2 = [bus.nextToken, bus.nextToken + 1] := by
    refine ⟨?_, ?_⟩ <;>
      simp [publishImpl, hmcget, hmoget, multicastStep, Nat.succ_ne_self]
  have hun : (unsubscribe (subscribeOnceThenPlain bus k ty c d1 d2)
        bus.nextToken).1.multicastEventHandlers =
      assocSet (subscribeOnceThenPlain bus k ty c d1 d2).multicastEventHandlers k
        [⟨bus.nextToken + 1, ty, c, d2⟩] ∧
      (unsubscribe (subscribeOnceThenPlain bus k ty c d1 d2)
        bus.nextToken).1.multicastOnceEventHandlers = bus.multicastOnceEventHandlers := by
    refine ⟨?_, ?_⟩ <;>
      simp [unsubscribe, htmget, hmcget, huget, hmoget, huoget, eraseFirstHandler,
        eraseFirstToken, hmo, assocGet_set_self,
        assocErase_set_of_none bus.multicastOnceEventHandlers k [bus.nextToken] ho]
  have hcount1 : getSubscriberCount (publishImpl (subscribeOnceThenPlain bus k ty c d1 d2) k
      SubscriptionMode.Multicast ty c).1 k = 1 := by
    rw [hB.1]
    simp [getSubscriberCount, hun.1, assocGet_set_self]
  have honce : assocGet (publishImpl (subscribeOnceThenPlain bus k ty c d1 d2) k
      SubscriptionMode.Multicast ty c).1.multicastOnceEventHandlers k = none := by
    rw [hB.1, hun.2]
    exact ho
  exact ⟨hA.1, hA.2, hcount2, hB.2, hcount1, honce⟩

/-- Witness for the once-removal theorem on a fresh bus over `Nat`
keys: tokens `1` (once) and `2` (plain), published types `"int"`
(matching) and `"str"` (mismatching). -/
theorem multicast_once_removal_witness :
    (publishImpl (subscribeOnceThenPlain (EventBusState.empty Nat) 0 "int" 1 "f1" "f2") 0
        SubscriptionMode.Multicast "str" 1).1 =
      subscribeOnceThenPlain (EventBusState.empty Nat) 0 "int" 1 "f1" "f2" ∧
    (publishImpl (subscribeOnceThenPlain (EventBusState.empty Nat) 0 "int" 1 "f1" "f2") 0
      SubscriptionMode.Multicast "str" 1).2.2 = [] ∧
    getSubscriberCount (subscribeOnceThenPlain (EventBusState.empty Nat) 0 "int" 1 "f1" "f2")
      0 = 2 ∧
    (publishImpl (subscribeOnceThenPlain (EventBusState.empty Nat) 0 "int" 1 "f1" "f2") 0
      SubscriptionMode.Multicast "int" 1).2.2 = [1, 2] ∧
    getSubscriberCount ((publishImpl (subscribeOnceThenPlain (EventBusState.empty Nat) 0
      "int" 1 "f1" "f2") 0 SubscriptionMode.Multicast "int" 1).1) 0 = 1 ∧
    assocGet (publishImpl (subscribeOnceThenPlain (EventBusState.empty Nat) 0
      "int" 1 "f1" "f2") 0
      SubscriptionMode.Multicast "int" 1).1.multicastOnceEventHandlers 0 = none := by
  have h := multicast_once_removal (EventBusState.empty Nat) 0 "int" "str" 1 "f1" "f2"
    rfl rfl rfl rfl (by decide)
  simpa [EventBusState.empty] using h

end EditorKit
